import Mathlib

/-!
Verification model of the `leddisplay` HUB75 LED display driver
(esp32-leddisplay, `src/leddisplay.c`).

The driver converts a logical RGB frame into 16-bit control words stored in
bitplane buffers that are streamed by a DMA engine.  This file shallowly
embeds, directly from the C source:

  * the per-pixel 16-bit word encoder used by `leddisplay_pixel_xy_rgb`,
    `leddisplay_pixel_fill_rgb` and `leddisplay_frame_update`;
  * the buffer-updating behaviour of those three functions (buffers are
    modelled as functions from (halfRow, bitplane, columnIndex) to words);
  * `leddisplay_set_brightness` / `leddisplay_get_brightness`;
  * the DMA descriptor ring built by `leddisplay_init` and the
    LSB/MSB-transition-bit planner loop of `leddisplay_init`;
  * `leddisplay_frame_xy_rgb`, `leddisplay_frame_fill_rgb`.

Machine integers are modelled as `Nat` (all relevant C values are
non-negative 16/32-bit quantities that never overflow in the modelled
ranges), except where the C source genuinely manipulates a possibly
negative `int` (the row address `gpioRowAddress`, and the heap sizes of the
planner), where `Int` is used.
-/

namespace Leddisplay

/-! ### I2S bus bit constants (leddisplay.c, `BIT_R1` .. `BIT_E`) -/

def BIT_R1 : Nat := 1        -- BIT(0)
def BIT_G1 : Nat := 2        -- BIT(1)
def BIT_B1 : Nat := 4        -- BIT(2)
def BIT_R2 : Nat := 8        -- BIT(3)
def BIT_G2 : Nat := 16       -- BIT(4)
def BIT_B2 : Nat := 32       -- BIT(5)
def BIT_LAT : Nat := 64      -- BIT(6)
def BIT_OE : Nat := 128      -- BIT(7)
def BIT_A : Nat := 256       -- BIT(8)
def BIT_B : Nat := 512       -- BIT(9)
def BIT_C : Nat := 1024      -- BIT(10)
def BIT_D : Nat := 2048      -- BIT(11)
def BIT_E : Nat := 4096      -- BIT(12)

/-- Constant `COLOR_DEPTH_BITS`. -/
def COLOR_DEPTH_BITS : Nat := 8

/-- Constant `NUM_FRAME_BUFFERS`. -/
def NUM_FRAME_BUFFERS : Nat := 2

/-! ### Panel geometry

The geometry is fixed at compile time via `CONFIG_LEDDISPLAY_TYPE_*`.  The
four working configurations (per the source: `32X16_8SCAN`, `32X32_16SCAN`,
`64X32_16SCAN`, `64X64_32SCAN`) all have `LEDDISPLAY_ROWS_IN_PARALLEL = 2`;
only the 64×64 panel drives the fifth address line E
(`LEDDISPLAY_NEED_E_GPIO`). -/

structure Geometry where
  W : Nat          -- LEDDISPLAY_WIDTH
  H : Nat          -- LEDDISPLAY_HEIGHT
  hasE : Bool      -- LEDDISPLAY_NEED_E_GPIO
deriving DecidableEq, Repr

/-- Derived `ROWS_PER_FRAME = LEDDISPLAY_HEIGHT / LEDDISPLAY_ROWS_IN_PARALLEL`. -/
def Geometry.R (g : Geometry) : Nat := g.H / 2

/-- Derived `PIXELS_PER_LATCH = (WIDTH * HEIGHT) / HEIGHT`. -/
def Geometry.L (g : Geometry) : Nat := g.W * g.H / g.H

def g32x16 : Geometry := ⟨32, 16, false⟩
def g32x32 : Geometry := ⟨32, 32, false⟩
def g64x32 : Geometry := ⟨64, 32, false⟩
def g64x64 : Geometry := ⟨64, 64, true⟩

/-- The four panel types the source marks as working. -/
def supportedGeometries : List Geometry := [g32x16, g32x32, g64x32, g64x64]

/-! ### Word encoder

All three encoding paths (`leddisplay_pixel_xy_rgb`,
`leddisplay_pixel_fill_rgb`, `leddisplay_frame_update`) build the output
word `v` by OR-ing the same row-address and control-bit terms, then the
path-specific colour bits.  The C code accumulates `v |= term` under `if`s;
this is modelled as the `Nat.lor` of the terms (each `0` when its condition
fails), in source order. -/

/-- Row-address bits of the output word.  From the source (identical in all
three paths):

    int gpioRowAddress = (bitplane_ix == 0) ? y_coord - 1 : y_coord;
    if (gpioRowAddress & BIT(0)) { v |= BIT_A; } ...

`gpioRowAddress` is a C `int`, so for `y_coord = 0` on bitplane 0 it is `-1`
and every tested bit is set (two's complement); hence the argument here is
`Int` and bits are read with `Int.testBit`. -/
def addrTerm (gpioRowAddress : Int) (hasE : Bool) : Nat :=
  (if gpioRowAddress.testBit 0 then BIT_A else 0) |||
  (if gpioRowAddress.testBit 1 then BIT_B else 0) |||
  (if gpioRowAddress.testBit 2 then BIT_C else 0) |||
  (if gpioRowAddress.testBit 3 then BIT_D else 0) |||
  (if hasE ∧ gpioRowAddress.testBit 4 then BIT_E else 0)

/-- LAT/OE control bits of the output word, from the source (identical in
all three paths).  `L = PIXELS_PER_LATCH`, `t = s_lsb_msb_transition_bit`,
`cutoff = s_brightness_val`. -/
def ctrlTerm (L t cutoff i x : Nat) : Nat :=
  -- need to disable OE after latch to hide row transition
  (if x = 0 then BIT_OE else 0) |||
  -- drive latch while shifting out last bit of RGB data
  (if x = L - 1 then BIT_LAT ||| BIT_OE else 0) |||
  -- turn off OE after brightness value is reached when displaying MSBs
  (if (i = 0 ∨ i > t) ∧ x ≥ cutoff then BIT_OE else 0) |||
  -- fractional brightness for the bits after LSB through the transition bit
  (if i ≠ 0 ∧ i ≤ t ∧ x ≥ cutoff >>> (t - i + 1) then BIT_OE else 0)

/-- The `gpioRowAddress` computation shared by all three paths. -/
def gpioRowAddr (i y : Nat) : Int :=
  if i = 0 then (y : Int) - 1 else (y : Int)

/-- Colour bits written by `leddisplay_pixel_xy_rgb`: the addressed half's
bits come from the colour arguments, the opposite half's bits are copied
from `old`, the word currently stored at the target position. -/
def pixelColorTerm (old mask : Nat) (top : Bool) (red green blue : Nat) : Nat :=
  if top then
    (if green &&& mask ≠ 0 then BIT_G1 else 0) |||
    (if blue &&& mask ≠ 0 then BIT_B1 else 0) |||
    (if red &&& mask ≠ 0 then BIT_R1 else 0) |||
    (if old &&& BIT_R2 ≠ 0 then BIT_R2 else 0) |||
    (if old &&& BIT_G2 ≠ 0 then BIT_G2 else 0) |||
    (if old &&& BIT_B2 ≠ 0 then BIT_B2 else 0)
  else
    (if red &&& mask ≠ 0 then BIT_R2 else 0) |||
    (if green &&& mask ≠ 0 then BIT_G2 else 0) |||
    (if blue &&& mask ≠ 0 then BIT_B2 else 0) |||
    (if old &&& BIT_R1 ≠ 0 then BIT_R1 else 0) |||
    (if old &&& BIT_G1 ≠ 0 then BIT_G1 else 0) |||
    (if old &&& BIT_B1 ≠ 0 then BIT_B1 else 0)

/-- Output word of `leddisplay_pixel_xy_rgb` for (adjusted) half-row `y`,
bitplane `i`, column `x`.  `old` is the word currently stored at the
target position (`rowbits->pixel[tmp_x_coord]`), read to preserve the
opposite half's colour bits.  `top` is `paint_top_half`. -/
def pixelWord (g : Geometry) (t cutoff : Nat) (old : Nat) (y i x : Nat)
    (top : Bool) (red green blue : Nat) : Nat :=
  addrTerm (gpioRowAddr i y) g.hasE |||
  ctrlTerm g.L t cutoff i x |||
  pixelColorTerm old ((1 <<< i) % 256) top red green blue
  -- uint8_t mask = BIT(bitplane_ix)

/-- Colour bits written by `leddisplay_pixel_fill_rgb`: both halves carry
the same colour. -/
def fillColorTerm (mask red green blue : Nat) : Nat :=
  (if red &&& mask ≠ 0 then BIT_R1 ||| BIT_R2 else 0) |||
  (if green &&& mask ≠ 0 then BIT_G1 ||| BIT_G2 else 0) |||
  (if blue &&& mask ≠ 0 then BIT_B1 ||| BIT_B2 else 0)

/-- Output word of `leddisplay_pixel_fill_rgb` for half-row `y`, bitplane
`i`, column `x`. -/
def fillWord (g : Geometry) (t cutoff : Nat) (y i x : Nat)
    (red green blue : Nat) : Nat :=
  addrTerm (gpioRowAddr i y) g.hasE |||
  ctrlTerm g.L t cutoff i x |||
  fillColorTerm ((1 <<< i) % 65536) red green blue
  -- uint16_t mask = 1 << bitplane_ix

/-- An RGB staging frame (`leddisplay_frame_t`), modelled through its
`raw` view: a function from byte offset to byte value; byte offset of
`yx[y][x][c]` is `(y*W + x)*3 + c`. -/
def Frame : Type := Nat → Nat

/-- Accessor `p_frame->yx[y][x][c]`. -/
def frameAt (g : Geometry) (f : Frame) (y x c : Nat) : Nat :=
  f ((y * g.W + x) * 3 + c)

/-- Colour bits written by `leddisplay_frame_update` (default gamma
configuration, where `_VAL2PWM` is the identity): the top half colour
comes from `p_frame->yx[y][x]`, the bottom half from
`p_frame->yx[y + ROWS_PER_FRAME][x]`. -/
def frameColorTerm (g : Geometry) (f : Frame) (y x mask : Nat) : Nat :=
  (if frameAt g f y x 0 &&& mask ≠ 0 then BIT_R1 else 0) |||
  (if frameAt g f y x 1 &&& mask ≠ 0 then BIT_G1 else 0) |||
  (if frameAt g f y x 2 &&& mask ≠ 0 then BIT_B1 else 0) |||
  (if frameAt g f (y + g.R) x 0 &&& mask ≠ 0 then BIT_R2 else 0) |||
  (if frameAt g f (y + g.R) x 1 &&& mask ≠ 0 then BIT_G2 else 0) |||
  (if frameAt g f (y + g.R) x 2 &&& mask ≠ 0 then BIT_B2 else 0)

/-- Output word of `leddisplay_frame_update` for half-row `y`, bitplane `i`,
column `x`. -/
def frameWord (g : Geometry) (t cutoff : Nat) (f : Frame) (y i x : Nat) : Nat :=
  addrTerm (gpioRowAddr i y) g.hasE |||
  ctrlTerm g.L t cutoff i x |||
  frameColorTerm g f y x ((1 <<< i) % 65536)
  -- uint16_t mask = 1 << bitplane_ix

/-- The OE predicate the claim describes, for column `x`, bitplane `i`,
transition bit `t`, brightness cutoff `cutoff`, row length `L`. -/
def oeCondition (L t cutoff i x : Nat) : Prop :=
  x = 0 ∨ x = L - 1 ∨ ((i = 0 ∨ i > t) ∧ x ≥ cutoff) ∨
    (i ≠ 0 ∧ i ≤ t ∧ x ≥ cutoff >>> (t - i + 1))

instance (L t cutoff i x : Nat) : Decidable (oeCondition L t cutoff i x) := by
  unfold oeCondition; infer_instance

/-- The number of row-address values expressible on the driven address
lines: 2^4 without E, 2^5 with E. -/
def addrSpan (hasE : Bool) : Nat := if hasE then 32 else 16

/-! ### Brightness controller (claim C4)

`leddisplay_set_brightness` / `leddisplay_get_brightness`, in the default
configuration (neither `CONFIG_LEDDISPLAY_CORR_BRIGHT_STRICT` nor
`..._MODIFIED`, so the `#else` branch `s_brightness_val = brightness_val`
is compiled). -/

/-- The module state `(s_brightness_val, s_brightness_percent)`. -/
structure BrightState where
  val : Int        -- s_brightness_val
  percent : Int    -- s_brightness_percent
deriving DecidableEq, Repr

/-- Function `leddisplay_set_brightness(brightness)`: returns the new state and the
C function's return value (the previously set percent). -/
def leddisplay_set_brightness (W : Nat) (s : BrightState) (brightness : Int) :
    BrightState × Int :=
  let last_brightness_percent := s.percent
  if brightness ≤ 0 then
    (⟨0, 0⟩, last_brightness_percent)
  else if brightness ≥ 100 then
    (⟨(W : Int), 100⟩, last_brightness_percent)
  else
    -- scale brightness percent to value for this display: 0..100% --> 0..WIDTH
    (⟨((1000 * (W : Int)) * brightness + 500) / 1000 / 100, brightness⟩,
      last_brightness_percent)

/-- Function `leddisplay_get_brightness()`. -/
def leddisplay_get_brightness (s : BrightState) : Int := s.percent

/-- Modelled from the spec: the claim says the stored cutoff is
`round(W·percent/100)`; rounding half-up of `W·p/100` is
`(2·W·p + 100) / 200` in integer arithmetic.  (For comparison with the
source's computation.) -/
def specRoundCutoff (W : Nat) (p : Int) : Int := (2 * (W : Int) * p + 100) / 200

/-! ### Initialisation planner (claim C5)

The loop in `leddisplay_init` that chooses `s_lsb_msb_transition_bit`.
The C `while (1)` loop increments `t` only while
`t < COLOR_DEPTH_BITS - 1`; it is modelled with structural recursion on
the remaining number of increments (`fuel = (COLOR_DEPTH_BITS - 1) - t`,
so `fuel > 0` iff the code's `t < COLOR_DEPTH_BITS - 1`). -/

/-- Size `sizeof(lldesc_t)` on the ESP32: 12 bytes (two 32-bit bitfield words
plus two pointers... one buffer pointer and one next pointer). -/
def lldescSize : Nat := 12

/-- Count `numDescriptorsPerRow` as computed by the loop
`for (i = t+1; i < COLOR_DEPTH_BITS; i++) num += 1 << (i - t - 1);`
starting from 1. -/
def numDescriptorsPerRow (t : Nat) : Nat :=
  1 + ((List.range' (t + 1) (COLOR_DEPTH_BITS - (t + 1))).map
        (fun i => 1 <<< (i - t - 1))).sum

/-- Memory `ramRequired = numDescriptorsPerRow * ROWS_PER_FRAME *
NUM_FRAME_BUFFERS * sizeof(lldesc_t)` -/
def ramRequired (g : Geometry) (t : Nat) : Nat :=
  numDescriptorsPerRow t * g.R * NUM_FRAME_BUFFERS * lldescSize

/-- Source `int psPerClock = 1000000000000UL / I2S_CLOCK_SPEED;`. -/
def psPerClock (clockHz : Nat) : Nat := 1000000000000 / clockHz

/-- Source `int nsPerLatch = (PIXELS_PER_LATCH * psPerClock) / 1000;`. -/
def nsPerLatch (g : Geometry) (clockHz : Nat) : Nat :=
  (g.L * psPerClock clockHz) / 1000

/-- Time `nsPerRow`: time to shift all bitplanes once plus the repeated MSB
suffixes. -/
def nsPerRow (g : Geometry) (clockHz t : Nat) : Nat :=
  COLOR_DEPTH_BITS * nsPerLatch g clockHz +
  ((List.range' (t + 1) (COLOR_DEPTH_BITS - (t + 1))).map
    (fun i => (1 <<< (i - t - 1)) * (COLOR_DEPTH_BITS - i) * nsPerLatch g clockHz)).sum

/-- Source `int nsPerFrame = nsPerRow * ROWS_PER_FRAME;`. -/
def nsPerFrame (g : Geometry) (clockHz t : Nat) : Nat :=
  nsPerRow g clockHz t * g.R

/-- Source `refreshRate = 1000000000UL / nsPerFrame;`. -/
def refreshRate (g : Geometry) (clockHz t : Nat) : Nat :=
  1000000000 / nsPerFrame g clockHz t

/-- Compile-time configuration consumed by the planner. -/
structure PlanConfig where
  clockHz : Nat       -- I2S_CLOCK_SPEED
  preserveRam : Int   -- CONFIG_LEDDISPLAY_PRESERVE_RAM_SIZE
  minFrameRate : Int  -- CONFIG_LEDDISPLAY_MIN_FRAME_RATE
deriving DecidableEq, Repr

/-- Condition `ramOkay`: `(ramRequired < largestBlockFree) && (ramRequired <
(totalFree - CONFIG_LEDDISPLAY_PRESERVE_RAM_SIZE))` — strict `<` on both
sides. -/
def ramOkay (g : Geometry) (cfg : PlanConfig) (largest total : Int) (t : Nat) : Prop :=
  (ramRequired g t : Int) < largest ∧
  (ramRequired g t : Int) < total - cfg.preserveRam

instance (g : Geometry) (cfg : PlanConfig) (largest total : Int) (t : Nat) :
    Decidable (ramOkay g cfg largest total t) := by
  unfold ramOkay; infer_instance

/-- Condition `refreshOkay`: `refreshRate >= CONFIG_LEDDISPLAY_MIN_FRAME_RATE`. -/
def refreshOkay (g : Geometry) (cfg : PlanConfig) (t : Nat) : Prop :=
  (refreshRate g cfg.clockHz t : Int) ≥ cfg.minFrameRate

instance (g : Geometry) (cfg : PlanConfig) (t : Nat) :
    Decidable (refreshOkay g cfg t) := by
  unfold refreshOkay; infer_instance

/-- Both loop conditions at transition bit `t`. -/
def planOkay (g : Geometry) (cfg : PlanConfig) (largest total : Int) (t : Nat) : Prop :=
  ramOkay g cfg largest total t ∧ refreshOkay g cfg t

instance (g : Geometry) (cfg : PlanConfig) (largest total : Int) (t : Nat) :
    Decidable (planOkay g cfg largest total t) := by
  unfold planOkay; infer_instance

/-- Outcome of `leddisplay_init`'s planner section: success with the chosen
transition bit, or the `esp_err_t` it reports (`ESP_ERR_NO_MEM` resp.
`ESP_FAIL`). -/
inductive InitResult where
  | ok (t : Nat)
  | errNoMem
  | errFail
deriving DecidableEq, Repr

/-- The planner loop.  On give-up the source sets `res = ESP_ERR_NO_MEM`
when `!ramOkay` and then *overwrites* it with `res = ESP_FAIL` when
`!refreshOkay`; since at give-up not both hold, the reported error is
`ESP_FAIL` whenever the refresh budget is unmet, else `ESP_ERR_NO_MEM`. -/
def planLoop (g : Geometry) (cfg : PlanConfig) (largest total : Int) :
    Nat → Nat → InitResult
  | t, 0 =>
    if planOkay g cfg largest total t then .ok t
    else if refreshOkay g cfg t then .errNoMem else .errFail
  | t, fuel + 1 =>
    if planOkay g cfg largest total t then .ok t
    else planLoop g cfg largest total (t + 1) fuel

/-- The planner: start at `t = 0` with `COLOR_DEPTH_BITS - 1` possible
increments. -/
def chooseTransitionBit (g : Geometry) (cfg : PlanConfig) (largest total : Int) :
    InitResult :=
  planLoop g cfg largest total 0 (COLOR_DEPTH_BITS - 1)

/-- Modelled from the claim's words: the claim's RAM condition is
`ram_required ≤ min(largest_free_DMA_block, total_free_DMA - reserve)`
(non-strict). -/
def specRamOkay (g : Geometry) (cfg : PlanConfig) (largest total : Int) (t : Nat) : Prop :=
  (ramRequired g t : Int) ≤ min largest (total - cfg.preserveRam)

instance (g : Geometry) (cfg : PlanConfig) (largest total : Int) (t : Nat) :
    Decidable (specRamOkay g cfg largest total t) := by
  unfold specRamOkay; infer_instance

/-! ### Bitplane buffers and the buffer-mutating operations

A bitplane buffer (`frame_t`, one of `s_frames[N]`) is modelled as a map
from `(halfRow, bitplane, columnIndex)` to the stored 16-bit word
(`s_frames[n].rowdata[y].rowbits[i].pixel[j]`).  The C loops that store
words one at a time are modelled as left folds of point updates. -/

def Buffer : Type := Nat × Nat × Nat → Nat

/-- Point update of a map (one array store). -/
def upd {κ α : Type} [DecidableEq κ] (f : κ → α) (k : κ) (v : α) : κ → α :=
  fun q => if q = k then v else f q

/-- Storage reordering applied by all three encoding paths: the word built
for logical column `x_coord` is stored at `x_coord - 1` when `x_coord`
is odd and at `x_coord + 1` when it is even ("Save the calculated value
to the bitplane memory in reverse order to account for I2S Tx FIFO mode1
ordering"). -/
def storeIdx (x : Nat) : Nat := if x % 2 ≠ 0 then x - 1 else x + 1

/-- Function `leddisplay_pixel_xy_rgb`, acting on the currently drawn buffer
(`s_frames[s_current_frame]`); default gamma configuration.  The
out-of-range guard, top/bottom-half split and per-bitplane store loop
follow the source. -/
def leddisplay_pixel_xy_rgb (g : Geometry) (t cutoff : Nat) (buf : Buffer)
    (x y red green blue : Nat) : Buffer :=
  if x ≥ g.W ∨ y ≥ g.H then buf
  else
    let top : Bool := ¬ (y > g.R - 1)      -- paint_top_half
    let y' : Nat := if y > g.R - 1 then y - g.R else y
    (List.range COLOR_DEPTH_BITS).foldl
      (fun acc i =>
        upd acc (y', i, storeIdx x)
          (pixelWord g t cutoff (acc (y', i, storeIdx x)) y' i x top red green blue))
      buf

/-- One x-sweep of the bulk encoders (`leddisplay_pixel_fill_rgb` and
`leddisplay_frame_update` share this loop shape): store `word y i x` at
column index `storeIdx x` for every `x < W`. -/
def encodeRow (word : Nat → Nat → Nat → Nat) (W y i : Nat) (buf : Buffer) : Buffer :=
  (List.range W).foldl
    (fun acc x => upd acc (y, i, storeIdx x) (word y i x)) buf

/-- The triple loop of the bulk encoders: rows, then bitplanes, then
columns. -/
def encodeFrameBuf (word : Nat → Nat → Nat → Nat) (R W : Nat) (buf : Buffer) : Buffer :=
  (List.range R).foldl
    (fun acc y =>
      (List.range COLOR_DEPTH_BITS).foldl
        (fun acc2 i => encodeRow word W y i acc2) acc)
    buf

/-- Function `leddisplay_pixel_fill_rgb` (default gamma configuration). -/
def leddisplay_pixel_fill_rgb (g : Geometry) (t cutoff : Nat) (buf : Buffer)
    (red green blue : Nat) : Buffer :=
  encodeFrameBuf (fun y i x => fillWord g t cutoff y i x red green blue) g.R g.W buf

/-- The buffer-encoding part of `leddisplay_frame_update` (default gamma
configuration; the publish/flip handshake around it is concurrency and
not modelled here). -/
def leddisplay_frame_update (g : Geometry) (t cutoff : Nat) (f : Frame)
    (buf : Buffer) : Buffer :=
  encodeFrameBuf (frameWord g t cutoff f) g.R g.W buf

/-! ### DMA descriptor rings (claim C1)

`leddisplay_init` builds two parallel descriptor lists (one per frame
buffer) with identical shape; a descriptor is modelled by the buffer row
it points into, the first bitplane of its slice, and the slice length in
16-bit words (`sizeof(row_bit_t) = 2·L` bytes = `L` words, so the byte
size `sizeof(row_bit_t) * (COLOR_DEPTH_BITS - i)` is `(D - i)·L` words).
The loop appends, for each row `j`: one descriptor over all bitplanes
(`rowbits[0]`, `D·L` words), then for each plane `i` from `t+1` to `D-1`,
`2^(i-t-1)` descriptors over `rowbits[i]` (`(D-i)·L` words).  Finally the
last descriptor's next pointer is set back to `&s_dmadesc[0]` of the same
ring. -/

structure DmaDesc where
  row : Nat
  plane : Nat
  words : Nat
deriving DecidableEq, Repr

/-- Descriptors appended for row `j` (in order). -/
def rowDescs (L t j : Nat) : List DmaDesc :=
  ⟨j, 0, COLOR_DEPTH_BITS * L⟩ ::
  (List.range' (t + 1) (COLOR_DEPTH_BITS - (t + 1))).flatMap
    (fun i => List.replicate (1 <<< (i - t - 1)) ⟨j, i, (COLOR_DEPTH_BITS - i) * L⟩)

/-- The whole descriptor list of one ring (rows in order). -/
def descList (g : Geometry) (t : Nat) : List DmaDesc :=
  (List.range g.R).flatMap (rowDescs g.L t)

/-- The next-descriptor link: descriptor `k` links to `k+1`, and the last
one (`eof` marked) links back to the first of the same ring. -/
def ringNext (n k : Nat) : Nat := if k = n - 1 then 0 else k + 1

/-- How many descriptors of row `j`'s stretch cover bitplane `i`: a
descriptor starting at plane `p` covers planes `p..D-1`, i.e. plane `i`
iff `p ≤ i`.  Linear traversal emits plane `i` of row `j` once per such
descriptor. -/
def emitCount (L t j i : Nat) : Nat :=
  ((rowDescs L t j).filter (fun d => d.plane ≤ i)).length

/-- Function `leddisplay_frame_xy_rgb`: plain store of `(r, g, b)` into the staging
frame, with the same silent out-of-range guard. -/
def leddisplay_frame_xy_rgb (g : Geometry) (f : Frame) (x y red green blue : Nat) :
    Frame :=
  if x ≥ g.W ∨ y ≥ g.H then f
  else
    upd (upd (upd f ((y * g.W + x) * 3 + 0) red) ((y * g.W + x) * 3 + 1) green)
      ((y * g.W + x) * 3 + 2) blue

/-- The general per-pixel loop path of `leddisplay_frame_fill_rgb`:
`for ix < NUMOF(p_frame->ix): ix[ix][0] = red; ix[ix][1] = green;
ix[ix][2] = blue;` (`p_frame->ix[ix][c]` is raw byte `ix*3 + c`). -/
def frameFillLoop (g : Geometry) (f : Frame) (red green blue : Nat) : Frame :=
  (List.range (g.H * g.W)).foldl
    (fun acc ix =>
      upd (upd (upd acc (ix * 3 + 0) red) (ix * 3 + 1) green) (ix * 3 + 2) blue)
    f

/-- Function `leddisplay_frame_fill_rgb`: `memset` fast path when the three channels
are equal (every byte of the `H·W·3`-byte frame is set to `red`),
otherwise the per-pixel loop. -/
def leddisplay_frame_fill_rgb (g : Geometry) (f : Frame) (red green blue : Nat) :
    Frame :=
  if red = green ∧ red = blue then
    fun p => if p < g.H * g.W * 3 then red else f p
  else
    frameFillLoop g f red green blue

/-- Channel written at raw offset `p` by the loop path. -/
def fillChannel (red green blue p : Nat) : Nat :=
  if p % 3 = 0 then red else if p % 3 = 1 then green else blue

/-! ### Lemmas and claim theorems -/

/-! ### Bit-extraction helper lemmas -/

lemma testBit_ite {c : Prop} [Decidable c] (B k : Nat) :
    ((if c then B else 0) : Nat).testBit k = (decide c && B.testBit k) := by
  split <;> simp_all

lemma addrBits_testBit_lt8 {k : Nat} (hk : k < 8) :
    BIT_A.testBit k = false ∧ BIT_B.testBit k = false ∧ BIT_C.testBit k = false ∧
    BIT_D.testBit k = false ∧ BIT_E.testBit k = false := by
  revert k hk; decide

lemma addrTerm_testBit_lt8 (a : Int) (e : Bool) {k : Nat} (hk : k < 8) :
    (addrTerm a e).testBit k = false := by
  obtain ⟨hA, hB, hC, hD, hE⟩ := addrBits_testBit_lt8 hk
  simp [addrTerm, Nat.testBit_lor, testBit_ite, hA, hB, hC, hD, hE]

lemma ctrlTerm_testBit_OE (L t cutoff i x : Nat) :
    (ctrlTerm L t cutoff i x).testBit 7 =
      decide (x = 0 ∨ x = L - 1 ∨ ((i = 0 ∨ i > t) ∧ x ≥ cutoff) ∨
        (i ≠ 0 ∧ i ≤ t ∧ x ≥ cutoff >>> (t - i + 1))) := by
  have h1 : BIT_OE.testBit 7 = true := by decide
  have h2 : ((BIT_LAT ||| BIT_OE) : Nat).testBit 7 = true := by decide
  simp only [ctrlTerm, Nat.testBit_lor, testBit_ite, h1, h2, Bool.and_true]
  by_cases hx0 : x = 0 <;> by_cases hxL : x = L - 1 <;>
    by_cases h3 : (i = 0 ∨ i > t) ∧ x ≥ cutoff <;>
    by_cases h4 : i ≠ 0 ∧ i ≤ t ∧ x ≥ cutoff >>> (t - i + 1) <;>
    simp [hx0, hxL, h3, h4]

lemma ctrlTerm_testBit_LAT (L t cutoff i x : Nat) :
    (ctrlTerm L t cutoff i x).testBit 6 = decide (x = L - 1) := by
  have h1 : BIT_OE.testBit 6 = false := by decide
  have h2 : ((BIT_LAT ||| BIT_OE) : Nat).testBit 6 = true := by decide
  simp only [ctrlTerm, Nat.testBit_lor, testBit_ite, h1, h2, Bool.and_true, Bool.and_false]
  by_cases hxL : x = L - 1 <;> simp [hxL]

lemma pixelColorTerm_lt (old mask : Nat) (top : Bool) (red green blue : Nat) :
    pixelColorTerm old mask top red green blue < 64 := by
  unfold pixelColorTerm
  split <;>
    · show _ < 2 ^ 6
      repeat' refine Nat.or_lt_two_pow ?_ ?_
      all_goals split <;> decide

lemma fillColorTerm_lt (mask red green blue : Nat) :
    fillColorTerm mask red green blue < 64 := by
  unfold fillColorTerm
  show _ < 2 ^ 6
  repeat' refine Nat.or_lt_two_pow ?_ ?_
  all_goals split <;> decide

lemma frameColorTerm_lt (g : Geometry) (f : Frame) (y x mask : Nat) :
    frameColorTerm g f y x mask < 64 := by
  unfold frameColorTerm
  show _ < 2 ^ 6
  repeat' refine Nat.or_lt_two_pow ?_ ?_
  all_goals split <;> decide

lemma le_pow_of_ge6 {k : Nat} (hk : 6 ≤ k) : (64 : Nat) ≤ 2 ^ k := by
  calc (64 : Nat) = 2 ^ 6 := by norm_num
    _ ≤ 2 ^ k := Nat.pow_le_pow_right (by norm_num) hk

lemma pixelWord_testBit_ge6 (g : Geometry) (t cutoff old y i x : Nat)
    (top : Bool) (red green blue : Nat) {k : Nat} (hk : 6 ≤ k) :
    (pixelWord g t cutoff old y i x top red green blue).testBit k =
      ((addrTerm (gpioRowAddr i y) g.hasE).testBit k ||
       (ctrlTerm g.L t cutoff i x).testBit k) := by
  have hcol : (pixelColorTerm old ((1 <<< i) % 256) top red green blue).testBit k = false :=
    Nat.testBit_eq_false_of_lt
      (lt_of_lt_of_le (pixelColorTerm_lt old _ top red green blue) (le_pow_of_ge6 hk))
  simp only [pixelWord, Nat.testBit_lor, hcol, Bool.or_false]

lemma fillWord_testBit_ge6 (g : Geometry) (t cutoff y i x red green blue : Nat)
    {k : Nat} (hk : 6 ≤ k) :
    (fillWord g t cutoff y i x red green blue).testBit k =
      ((addrTerm (gpioRowAddr i y) g.hasE).testBit k ||
       (ctrlTerm g.L t cutoff i x).testBit k) := by
  have hcol : (fillColorTerm ((1 <<< i) % 65536) red green blue).testBit k = false :=
    Nat.testBit_eq_false_of_lt
      (lt_of_lt_of_le (fillColorTerm_lt _ red green blue) (le_pow_of_ge6 hk))
  simp only [fillWord, Nat.testBit_lor, hcol, Bool.or_false]

lemma frameWord_testBit_ge6 (g : Geometry) (t cutoff : Nat) (f : Frame)
    (y i x : Nat) {k : Nat} (hk : 6 ≤ k) :
    (frameWord g t cutoff f y i x).testBit k =
      ((addrTerm (gpioRowAddr i y) g.hasE).testBit k ||
       (ctrlTerm g.L t cutoff i x).testBit k) := by
  have hcol : (frameColorTerm g f y x ((1 <<< i) % 65536)).testBit k = false :=
    Nat.testBit_eq_false_of_lt
      (lt_of_lt_of_le (frameColorTerm_lt g f y x _) (le_pow_of_ge6 hk))
  simp only [frameWord, Nat.testBit_lor, hcol, Bool.or_false]

/-- C2.  In every encoding path (`leddisplay_pixel_xy_rgb`,
`leddisplay_pixel_fill_rgb`, `leddisplay_frame_update`) the OE bit
(bit 7) of the encoded word is set exactly when: `x = 0`, or `x = L-1`,
or the bitplane is the LSB or a high plane (`i = 0 ∨ i > t`) and
`x ≥ cutoff`, or the bitplane is low-but-not-LSB (`0 < i ≤ t`) and
`x ≥ cutoff >>> (t - i + 1)`. -/
theorem oe_bit_characterization (g : Geometry) (t cutoff old y i x : Nat)
    (top : Bool) (red green blue : Nat) (f : Frame) :
    ((pixelWord g t cutoff old y i x top red green blue).testBit 7 = true ↔
        oeCondition g.L t cutoff i x) ∧
    ((fillWord g t cutoff y i x red green blue).testBit 7 = true ↔
        oeCondition g.L t cutoff i x) ∧
    ((frameWord g t cutoff f y i x).testBit 7 = true ↔
        oeCondition g.L t cutoff i x) := by
  refine ⟨?_, ?_, ?_⟩
  · rw [pixelWord_testBit_ge6 g t cutoff old y i x top red green blue (by norm_num),
      addrTerm_testBit_lt8 _ _ (by norm_num), ctrlTerm_testBit_OE]
    simp [oeCondition]
  · rw [fillWord_testBit_ge6 g t cutoff y i x red green blue (by norm_num),
      addrTerm_testBit_lt8 _ _ (by norm_num), ctrlTerm_testBit_OE]
    simp [oeCondition]
  · rw [frameWord_testBit_ge6 g t cutoff f y i x (by norm_num),
      addrTerm_testBit_lt8 _ _ (by norm_num), ctrlTerm_testBit_OE]
    simp [oeCondition]

/-- C9.  In every encoding path, the LAT bit (bit 6) of the encoded word is
set if and only if the column is the last one of the bitplane
(`x = L - 1`). -/
theorem lat_bit_iff_last_column (g : Geometry) (t cutoff old y i x : Nat)
    (top : Bool) (red green blue : Nat) (f : Frame) :
    ((pixelWord g t cutoff old y i x top red green blue).testBit 6 = true ↔
        x = g.L - 1) ∧
    ((fillWord g t cutoff y i x red green blue).testBit 6 = true ↔ x = g.L - 1) ∧
    ((frameWord g t cutoff f y i x).testBit 6 = true ↔ x = g.L - 1) := by
  refine ⟨?_, ?_, ?_⟩
  · rw [pixelWord_testBit_ge6 g t cutoff old y i x top red green blue (by norm_num),
      addrTerm_testBit_lt8 _ _ (by norm_num), ctrlTerm_testBit_LAT]
    simp
  · rw [fillWord_testBit_ge6 g t cutoff y i x red green blue (by norm_num),
      addrTerm_testBit_lt8 _ _ (by norm_num), ctrlTerm_testBit_LAT]
    simp
  · rw [frameWord_testBit_ge6 g t cutoff f y i x (by norm_num),
      addrTerm_testBit_lt8 _ _ (by norm_num), ctrlTerm_testBit_LAT]
    simp

/-! ### Row-address field (claim C3)

The row-address field of an encoded word is its value shifted right by 8:
bits 8..11 are A,B,C,D and bit 12 is E.  The source always writes the four
bits A..D (and E only when `LEDDISPLAY_NEED_E_GPIO`), reading them from the
C `int` `gpioRowAddress`, which is `-1` for `y = 0` on bitplane 0. -/

lemma lor_shiftRight (a b n : Nat) : (a ||| b) >>> n = (a >>> n) ||| (b >>> n) := by
  apply Nat.eq_of_testBit_eq
  intro k
  simp [Nat.testBit_lor, Nat.testBit_shiftRight]

/-- Value of the row-address field written by the source's
`gpioRowAddress` bit tests, as a function of `y` and of whether the
bitplane is the LSB: `(y - [i = 0])` reduced modulo the span of the
*driven address lines* (not modulo `R`). -/
lemma addrTerm_value :
    ∀ y < 32, ∀ (d e : Bool), y < addrSpan e →
      addrTerm (if d then (y : Int) - 1 else (y : Int)) e =
        256 * ((y + addrSpan e - (if d then 1 else 0)) % addrSpan e) := by
  decide

lemma ctrlTerm_lt (L t cutoff i x : Nat) : ctrlTerm L t cutoff i x < 256 := by
  unfold ctrlTerm
  refine Nat.or_lt_two_pow (n := 8) ?_ ?_
  · refine Nat.or_lt_two_pow ?_ ?_
    · refine Nat.or_lt_two_pow ?_ ?_ <;> split <;> decide
    · split <;> decide
  · split <;> decide

/-- Extracting the row-address field: if the low component is below 256,
shifting the word right by 8 recovers the address value. -/
lemma addr_field_extract (E rest : Nat) (hrest : rest < 256) :
    ((256 * E ||| rest) >>> 8) = E := by
  have h1 : rest >>> 8 = 0 := by
    rw [Nat.shiftRight_eq_div_pow]
    exact Nat.div_eq_of_lt (by simpa using hrest)
  have h2 : (256 * E) >>> 8 = E := by
    rw [Nat.shiftRight_eq_div_pow, show (2:Nat) ^ 8 = 256 by norm_num,
      Nat.mul_div_cancel_left _ (by norm_num)]
  rw [lor_shiftRight, h1, h2]
  simp

lemma addrTerm_gpio (i y : Nat) (e : Bool) (hy32 : y < 32) (hyA : y < addrSpan e) :
    addrTerm (gpioRowAddr i y) e =
      256 * ((y + addrSpan e - (if i = 0 then 1 else 0)) % addrSpan e) := by
  by_cases hi : i = 0
  · simpa [gpioRowAddr, hi] using addrTerm_value y hy32 true e hyA
  · simpa [gpioRowAddr, hi] using addrTerm_value y hy32 false e hyA

lemma word_addr_field (a : Int) (e : Bool) (ctrl col val : Nat)
    (hctrl : ctrl < 256) (hcol : col < 256) (ha : addrTerm a e = 256 * val) :
    (addrTerm a e ||| ctrl ||| col) >>> 8 = val := by
  rw [Nat.lor_assoc, ha]
  refine addr_field_extract val _ ?_
  have h := Nat.or_lt_two_pow (n := 8) (by simpa using hctrl) (by simpa using hcol)
  simpa using h

/-- C3 (amended).  For every supported geometry, in-range half-row
`y < R` and every bitplane `i`, the row-address field (the encoded word
shifted right by 8) produced by all three encoding paths equals
`(y - [i = 0])` reduced modulo the span of the driven address lines
(`2^4 = 16` without E, `2^5 = 32` with E) — written in `Nat` as
`(y + span - [i = 0]) % span`.  For the three geometries other than the
32×16 panel the span equals `R`, so there the claim's
`(y - [i = 0]) mod R` holds; on the 32×16 panel (`R = 8`) the field is
reduced mod 16, not mod 8. -/
theorem row_address_field (g : Geometry) (t cutoff old y i x : Nat)
    (top : Bool) (red green blue : Nat) (f : Frame)
    (hg : g ∈ supportedGeometries) (hy : y < g.R) :
    ((pixelWord g t cutoff old y i x top red green blue) >>> 8 =
      (y + addrSpan g.hasE - (if i = 0 then 1 else 0)) % addrSpan g.hasE) ∧
    ((fillWord g t cutoff y i x red green blue) >>> 8 =
      (y + addrSpan g.hasE - (if i = 0 then 1 else 0)) % addrSpan g.hasE) ∧
    ((frameWord g t cutoff f y i x) >>> 8 =
      (y + addrSpan g.hasE - (if i = 0 then 1 else 0)) % addrSpan g.hasE) ∧
    (g ≠ g32x16 → addrSpan g.hasE = g.R) := by
  have hy32 : y < 32 := by
    fin_cases hg <;> simp [Geometry.R, g32x16, g32x32, g64x32, g64x64] at hy <;> omega
  have hyA : y < addrSpan g.hasE := by
    fin_cases hg <;>
      simp [Geometry.R, addrSpan, g32x16, g32x32, g64x32, g64x64] at hy ⊢ <;> omega
  have ha := addrTerm_gpio i y g.hasE hy32 hyA
  refine ⟨?_, ?_, ?_, ?_⟩
  · simp only [pixelWord]
    exact word_addr_field _ _ _ _ _ (ctrlTerm_lt _ _ _ _ _)
      (lt_trans (pixelColorTerm_lt _ _ _ _ _ _) (by norm_num)) ha
  · simp only [fillWord]
    exact word_addr_field _ _ _ _ _ (ctrlTerm_lt _ _ _ _ _)
      (lt_trans (fillColorTerm_lt _ _ _ _) (by norm_num)) ha
  · simp only [frameWord]
    exact word_addr_field _ _ _ _ _ (ctrlTerm_lt _ _ _ _ _)
      (lt_trans (frameColorTerm_lt _ _ _ _ _) (by norm_num)) ha
  · intro hne
    fin_cases hg <;> simp_all [addrSpan, Geometry.R, g32x16, g32x32, g64x32, g64x64]

/-- Witness for `row_address_field`: 64×32 panel, `y = 5`, bitplane 0 —
the address field is `(5 - 1) mod 16 = 4`. -/
theorem row_address_field_witness :
    ((pixelWord g64x32 0 0 0 5 0 1 true 0 0 0) >>> 8 =
      (5 + addrSpan g64x32.hasE - 1) % addrSpan g64x32.hasE) ∧
    ((fillWord g64x32 0 0 5 0 1 0 0 0) >>> 8 =
      (5 + addrSpan g64x32.hasE - 1) % addrSpan g64x32.hasE) ∧
    ((frameWord g64x32 0 0 (fun _ => 0) 5 0 1) >>> 8 =
      (5 + addrSpan g64x32.hasE - 1) % addrSpan g64x32.hasE) ∧
    (g64x32 ≠ g32x16 → addrSpan g64x32.hasE = g64x32.R) := by
  have h := row_address_field g64x32 0 0 0 5 0 1 true 0 0 0 (fun _ => 0)
    (by decide) (by decide)
  simpa using h

/-- C3 counterexample.  On the 32×16 panel (`R = 8`), the word encoded for
`y = 0` on bitplane 0 carries address field 15 (all four driven address
bits set, i.e. `(y - 1) mod 16`), whereas the claim's
`(y - 1) mod R = (0 + 8 - 1) % 8` is 7. -/
theorem row_address_claim_counterexample :
    (pixelWord g32x16 0 0 0 0 0 1 true 0 0 0) >>> 8 = 15 ∧
    (0 + g32x16.R - 1) % g32x16.R = 7 ∧ (15 : Nat) ≠ 7 := by
  refine ⟨by decide, by decide, by decide⟩

/-- C4 counterexample.  With `W = 64` and `percent = 26`, the source stores
cutoff `((1000·64·26 + 500)/1000)/100 = 16 = ⌊64·26/100⌋`, whereas the
claim's `round(64·26/100) = round(16.64)` is 17. -/
theorem set_brightness_round_counterexample :
    (leddisplay_set_brightness 64 ⟨0, 0⟩ 26).fst.val = 16 ∧
    specRoundCutoff 64 26 = 17 ∧ (16 : Int) ≠ 17 := by
  refine ⟨by decide, by decide, by decide⟩

/-- C4 (amended).  For every positive width and every integer `percent`,
`leddisplay_set_brightness` clamps the input to `[0, 100]`, stores the
column cutoff `⌊W·clamped/100⌋` (floor, not round), which equals `W` iff
the clamped percent is 100, and returns the previously stored percent;
`leddisplay_get_brightness` afterwards returns the clamped percent. -/
theorem set_brightness_behaviour (W : Nat) (s : BrightState) (brightness : Int)
    (hW : 0 < W) :
    (leddisplay_set_brightness W s brightness).snd = s.percent ∧
    (leddisplay_set_brightness W s brightness).fst.percent =
      max 0 (min 100 brightness) ∧
    (leddisplay_set_brightness W s brightness).fst.val =
      (W : Int) * max 0 (min 100 brightness) / 100 ∧
    ((leddisplay_set_brightness W s brightness).fst.val = (W : Int) ↔
      max 0 (min 100 brightness) = 100) ∧
    leddisplay_get_brightness (leddisplay_set_brightness W s brightness).fst =
      max 0 (min 100 brightness) := by
  have hW' : (0 : Int) < (W : Int) := by exact_mod_cast hW
  unfold leddisplay_set_brightness leddisplay_get_brightness
  by_cases h0 : brightness ≤ 0
  · have hc : max 0 (min 100 brightness) = 0 := by omega
    simp only [h0, if_true, hc]
    refine ⟨by simp, by simp, by simp, ?_, by simp⟩
    constructor
    · intro h; omega
    · intro h; omega
  · by_cases h100 : brightness ≥ 100
    · have hc : max 0 (min 100 brightness) = 100 := by omega
      simp only [h0, if_false, h100, if_true, hc]
      refine ⟨by simp, by simp, ?_, ?_, by simp⟩
      · show ((W : Int)) = (W : Int) * 100 / 100
        rw [Int.mul_ediv_cancel _ (by norm_num)]
      · simp
    · have hc : max 0 (min 100 brightness) = brightness := by omega
      simp only [h0, if_false, h100, hc]
      have hval : (1000 * (W : Int)) * brightness + 500 = 500 + ((W : Int) * brightness) * 1000 := by
        ring
      have hdiv : ((1000 * (W : Int)) * brightness + 500) / 1000 = (W : Int) * brightness := by
        rw [hval, Int.add_mul_ediv_right _ _ (by norm_num : (1000 : Int) ≠ 0)]
        norm_num
      refine ⟨by simp, by simp, by rw [hdiv], ?_, by simp⟩
      rw [hdiv]
      have hlt : (W : Int) * brightness / 100 < (W : Int) := by
        rw [Int.ediv_lt_iff_lt_mul (by norm_num : (0 : Int) < 100)]
        have : (W : Int) * brightness < (W : Int) * 100 := by
          apply mul_lt_mul_of_pos_left (by omega) hW'
        linarith
      constructor
      · intro h; omega
      · intro h; omega

/-- Witness for `set_brightness_behaviour` at `W = 64`, `percent = 26`. -/
theorem set_brightness_behaviour_witness :
    (leddisplay_set_brightness 64 ⟨48, 75⟩ 26).snd = 75 ∧
    (leddisplay_set_brightness 64 ⟨48, 75⟩ 26).fst.percent = max 0 (min 100 26) ∧
    (leddisplay_set_brightness 64 ⟨48, 75⟩ 26).fst.val =
      (64 : Int) * max 0 (min 100 26) / 100 ∧
    ((leddisplay_set_brightness 64 ⟨48, 75⟩ 26).fst.val = (64 : Int) ↔
      max 0 (min 100 26) = 100) ∧
    leddisplay_get_brightness (leddisplay_set_brightness 64 ⟨48, 75⟩ 26).fst =
      max 0 (min 100 26) := by
  have h := set_brightness_behaviour 64 ⟨48, 75⟩ 26 (by norm_num)
  simpa using h

lemma planLoop_ok (g : Geometry) (cfg : PlanConfig) (largest total : Int) :
    ∀ (fuel t t' : Nat), t ≤ t' → t' ≤ t + fuel →
      planOkay g cfg largest total t' →
      (∀ u, t ≤ u → u < t' → ¬ planOkay g cfg largest total u) →
      planLoop g cfg largest total t fuel = .ok t' := by
  intro fuel
  induction fuel with
  | zero =>
    intro t t' h1 h2 hok _
    have : t' = t := by omega
    subst this
    simp [planLoop, hok]
  | succ fuel ih =>
    intro t t' h1 h2 hok hmin
    by_cases ht : planOkay g cfg largest total t
    · have : t' = t := by
        by_contra hne
        exact hmin t le_rfl (by omega) ht
      subst this
      simp [planLoop, ht]
    · have ht' : t < t' := by
        rcases Nat.eq_or_lt_of_le h1 with h | h
        · exact absurd (h ▸ hok) ht
        · exact h
      simp only [planLoop, if_neg ht]
      exact ih (t + 1) t' (by omega) (by omega) hok
        (fun u hu1 hu2 => hmin u (by omega) hu2)

lemma planLoop_err (g : Geometry) (cfg : PlanConfig) (largest total : Int) :
    ∀ (fuel t : Nat),
      (∀ u, t ≤ u → u ≤ t + fuel → ¬ planOkay g cfg largest total u) →
      planLoop g cfg largest total t fuel =
        (if refreshOkay g cfg (t + fuel) then .errNoMem else .errFail) := by
  intro fuel
  induction fuel with
  | zero =>
    intro t hall
    simp [planLoop, hall t le_rfl le_rfl]
  | succ fuel ih =>
    intro t hall
    simp only [planLoop, if_neg (hall t le_rfl (by omega))]
    have := ih (t + 1) (fun u hu1 hu2 => hall u (by omega) (by omega))
    rw [this]
    have harith : t + 1 + fuel = t + (fuel + 1) := by omega
    rw [harith]

/-- C5 (amended).  The planner starts at `t = 0` and increments `t` until
both `ramRequired < largest_free_DMA_block` and
`ramRequired < total_free_DMA - reserve` (strict `<`, i.e.
`ramRequired < min(...)` is not enough when equal) and the computed
refresh rate is at least the configured minimum; it returns the first
`t ≤ D-1` satisfying both.  If no `t ≤ D-1` satisfies both, init fails,
reporting the refresh-too-low error (`ESP_FAIL`) whenever the refresh
budget is unmet at `t = D-1`, and the no-memory error (`ESP_ERR_NO_MEM`)
otherwise (i.e. when only the RAM budget is unmet). -/
theorem planner_behaviour (g : Geometry) (cfg : PlanConfig) (largest total : Int) :
    (∀ t : Nat, t ≤ COLOR_DEPTH_BITS - 1 →
      planOkay g cfg largest total t →
      (∀ u < t, ¬ planOkay g cfg largest total u) →
      chooseTransitionBit g cfg largest total = .ok t) ∧
    ((∀ t, t ≤ COLOR_DEPTH_BITS - 1 → ¬ planOkay g cfg largest total t) →
      chooseTransitionBit g cfg largest total =
        (if refreshOkay g cfg (COLOR_DEPTH_BITS - 1) then .errNoMem else .errFail)) := by
  constructor
  · intro t ht hok hmin
    exact planLoop_ok g cfg largest total (COLOR_DEPTH_BITS - 1) 0 t (by omega)
      (by simpa using ht) hok (fun u _ hu2 => hmin u hu2)
  · intro hall
    have := planLoop_err g cfg largest total (COLOR_DEPTH_BITS - 1) 0
      (fun u hu1 hu2 => hall u (by simpa using hu2))
    simpa using this

/-- Witness for `planner_behaviour`: with a 20 MHz clock, no reserve, no
minimum refresh, `largest = total = 10^9`, the planner picks `t = 0`. -/
theorem planner_behaviour_witness :
    chooseTransitionBit g64x32 ⟨20000000, 0, 0⟩ 1000000000 1000000000 =
      .ok 0 := by
  exact (planner_behaviour g64x32 ⟨20000000, 0, 0⟩ 1000000000 1000000000).1 0
    (by omega) (by decide) (by omega)

/-- C5 counterexample.  With `largest` exactly equal to `ramRequired` at
`t = 0` (64×32 panel: `128·16·2·12 = 49152` bytes), the claim's
condition `ram_required ≤ min(largest, total - reserve)` already holds at
`t = 0` (and the refresh minimum of 0 is met), yet the code's strict `<`
rejects `t = 0` and the planner chooses `t = 1`. -/
theorem planner_claim_counterexample :
    specRamOkay g64x32 ⟨20000000, 0, 0⟩ 49152 1000000000 0 ∧
    refreshOkay g64x32 ⟨20000000, 0, 0⟩ 0 ∧
    chooseTransitionBit g64x32 ⟨20000000, 0, 0⟩ 49152 1000000000 = .ok 1 ∧
    InitResult.ok 1 ≠ InitResult.ok 0 := by
  refine ⟨by decide, by decide, by decide, by decide⟩

lemma upd_same {κ α : Type} [DecidableEq κ] (f : κ → α) (k : κ) (v : α) :
    upd f k v k = v := by simp [upd]

lemma upd_other {κ α : Type} [DecidableEq κ] (f : κ → α) (k : κ) (v : α)
    (q : κ) (h : q ≠ k) : upd f k v q = f q := by simp [upd, h]

lemma foldl_updF_of_ne {κ α ι : Type} [DecidableEq κ]
    (key : ι → κ) (F : ι → α → α) :
    ∀ (l : List ι) (f : κ → α) (q : κ), (∀ j ∈ l, key j ≠ q) →
      (l.foldl (fun acc j => upd acc (key j) (F j (acc (key j)))) f) q = f q := by
  intro l
  induction l with
  | nil => intro f q _; rfl
  | cons a l ih =>
    intro f q h
    simp only [List.foldl_cons]
    rw [ih _ q (fun j hj => h j (List.mem_cons_of_mem a hj))]
    exact upd_other _ _ _ _ (Ne.symm (h a (List.mem_cons_self a l)))

lemma foldl_updF_of_mem {κ α ι : Type} [DecidableEq κ]
    (key : ι → κ) (F : ι → α → α) :
    ∀ (l : List ι) (f : κ → α) (i : ι),
      l.Pairwise (fun a b => key a ≠ key b) → i ∈ l →
      (l.foldl (fun acc j => upd acc (key j) (F j (acc (key j)))) f) (key i) =
        F i (f (key i)) := by
  intro l
  induction l with
  | nil => intro f i _ h; cases h
  | cons a l ih =>
    intro f i hp hm
    have hhead : ∀ b ∈ l, key a ≠ key b := (List.pairwise_cons.mp hp).1
    simp only [List.foldl_cons]
    rcases List.mem_cons.mp hm with rfl | hm'
    · rw [foldl_updF_of_ne key F l _ _ (fun j hj => Ne.symm (hhead j hj))]
      rw [upd_same]
    · rw [ih _ i (List.pairwise_cons.mp hp).2 hm',
        upd_other _ _ _ _ (Ne.symm (hhead i hm'))]

lemma storeIdx_eq_xor (x : Nat) : storeIdx x = x ^^^ 1 := by
  have hdiv : storeIdx x / 2 = x / 2 := by
    unfold storeIdx; split <;> omega
  have hmod : storeIdx x % 2 = 1 - x % 2 := by
    unfold storeIdx; split <;> omega
  apply Nat.eq_of_testBit_eq
  intro j
  cases j with
  | zero =>
    rw [Nat.testBit_xor, Nat.testBit_zero, Nat.testBit_zero, Nat.testBit_zero]
    have hx2 : x % 2 = 0 ∨ x % 2 = 1 := by omega
    rcases hx2 with h | h <;> simp [hmod, h]
  | succ j =>
    rw [Nat.testBit_xor, Nat.testBit_succ, Nat.testBit_succ, hdiv]
    have h1 : (1 : Nat).testBit (j + 1) = false :=
      Nat.testBit_eq_false_of_lt (Nat.one_lt_two_pow (by omega))
    rw [h1]
    simp

lemma storeIdx_involutive (x : Nat) : storeIdx (storeIdx x) = x := by
  rw [storeIdx_eq_xor, storeIdx_eq_xor, Nat.xor_assoc]
  simp

lemma storeIdx_injective {a b : Nat} (h : storeIdx a = storeIdx b) : a = b := by
  have := congrArg storeIdx h
  rwa [storeIdx_involutive, storeIdx_involutive] at this

lemma storeIdx_lt {W x : Nat} (hW : W % 2 = 0) (hx : x < W) : storeIdx x < W := by
  unfold storeIdx; split <;> omega

lemma encodeRow_at (word : Nat → Nat → Nat → Nat) (W y i : Nat) (buf : Buffer)
    (hW : W % 2 = 0) (q : Nat × Nat × Nat) :
    encodeRow word W y i buf q =
      if q.1 = y ∧ q.2.1 = i ∧ q.2.2 < W then word y i (storeIdx q.2.2)
      else buf q := by
  obtain ⟨yy, ii, xx⟩ := q
  by_cases hq : yy = y ∧ ii = i ∧ xx < W
  · obtain ⟨rfl, rfl, hxx⟩ := hq
    have hcond : yy = yy ∧ ii = ii ∧ xx < W := ⟨rfl, rfl, hxx⟩
    rw [if_pos hcond]
    have hx' : storeIdx xx < W := storeIdx_lt hW hxx
    have hpair : (List.range W).Pairwise
        (fun a b => ((yy, ii, storeIdx a) : Nat × Nat × Nat) ≠ (yy, ii, storeIdx b)) := by
      refine List.Pairwise.imp ?_ (List.nodup_range W)
      intro a b hab heq
      simp only [Prod.mk.injEq, true_and] at heq
      exact hab (storeIdx_injective heq)
    have hmem : storeIdx xx ∈ List.range W := List.mem_range.mpr hx'
    have h := foldl_updF_of_mem (fun x => ((yy, ii, storeIdx x) : Nat × Nat × Nat))
      (fun x _ => word yy ii x) (List.range W) buf (storeIdx xx) hpair hmem
    simpa [encodeRow, storeIdx_involutive] using h
  · rw [if_neg hq]
    refine foldl_updF_of_ne (fun x => ((y, i, storeIdx x) : Nat × Nat × Nat))
      (fun x _ => word y i x) (List.range W) buf (yy, ii, xx) ?_
    intro x hx heq
    rw [List.mem_range] at hx
    have h3 := storeIdx_lt hW hx
    simp only [Prod.mk.injEq] at heq
    exact hq ⟨heq.1.symm, heq.2.1.symm, heq.2.2 ▸ h3⟩

lemma encodePlanesAux (word : Nat → Nat → Nat → Nat) (W y : Nat) (hW : W % 2 = 0) :
    ∀ (n : Nat) (buf : Buffer) (q : Nat × Nat × Nat),
      ((List.range n).foldl (fun acc i => encodeRow word W y i acc) buf) q =
        if q.1 = y ∧ q.2.1 < n ∧ q.2.2 < W then word y q.2.1 (storeIdx q.2.2)
        else buf q := by
  intro n
  induction n with
  | zero =>
    intro buf q
    have h : ¬ (q.1 = y ∧ q.2.1 < 0 ∧ q.2.2 < W) := by omega
    simp [h]
  | succ n ih =>
    intro buf q
    rw [List.range_succ, List.foldl_append, List.foldl_cons, List.foldl_nil]
    rw [encodeRow_at word W y n _ hW q]
    by_cases h1 : q.1 = y ∧ q.2.1 = n ∧ q.2.2 < W
    · obtain ⟨hy, hi, hx⟩ := h1
      have h2 : q.1 = y ∧ q.2.1 < n + 1 ∧ q.2.2 < W := by omega
      rw [if_pos ⟨hy, hi, hx⟩, if_pos h2, hi]
    · rw [if_neg h1, ih buf q]
      have hiff : (q.1 = y ∧ q.2.1 < n ∧ q.2.2 < W) ↔
          (q.1 = y ∧ q.2.1 < n + 1 ∧ q.2.2 < W) := by omega
      simp only [hiff]

lemma encodeFrameBufAux (word : Nat → Nat → Nat → Nat) (W : Nat) (hW : W % 2 = 0) :
    ∀ (R : Nat) (buf : Buffer) (q : Nat × Nat × Nat),
      encodeFrameBuf word R W buf q =
        if q.1 < R ∧ q.2.1 < COLOR_DEPTH_BITS ∧ q.2.2 < W
        then word q.1 q.2.1 (storeIdx q.2.2)
        else buf q := by
  intro R
  induction R with
  | zero =>
    intro buf q
    have h : ¬ (q.1 < 0 ∧ q.2.1 < COLOR_DEPTH_BITS ∧ q.2.2 < W) := by omega
    simp [encodeFrameBuf, h]
  | succ R ih =>
    intro buf q
    unfold encodeFrameBuf
    rw [List.range_succ, List.foldl_append, List.foldl_cons, List.foldl_nil]
    have hmid := encodePlanesAux word W R hW COLOR_DEPTH_BITS
      ((List.range R).foldl (fun acc y =>
        (List.range COLOR_DEPTH_BITS).foldl
          (fun acc2 i => encodeRow word W y i acc2) acc) buf) q
    rw [hmid]
    by_cases h1 : q.1 = R ∧ q.2.1 < COLOR_DEPTH_BITS ∧ q.2.2 < W
    · obtain ⟨hy, hi, hx⟩ := h1
      have h2 : q.1 < R + 1 ∧ q.2.1 < COLOR_DEPTH_BITS ∧ q.2.2 < W := by omega
      rw [if_pos ⟨hy, hi, hx⟩, if_pos h2, hy]
    · rw [if_neg h1]
      have hih := ih buf q
      unfold encodeFrameBuf at hih
      rw [hih]
      have hiff : (q.1 < R ∧ q.2.1 < COLOR_DEPTH_BITS ∧ q.2.2 < W) ↔
          (q.1 < R + 1 ∧ q.2.1 < COLOR_DEPTH_BITS ∧ q.2.2 < W) := by omega
      simp only [hiff]

lemma pixel_planes_pairwise (y' s : Nat) :
    (List.range COLOR_DEPTH_BITS).Pairwise
      (fun a b => ((y', a, s) : Nat × Nat × Nat) ≠ (y', b, s)) := by
  refine List.Pairwise.imp ?_ (List.nodup_range COLOR_DEPTH_BITS)
  intro a b hab heq
  simp only [Prod.mk.injEq] at heq
  exact hab heq.2.1

/-- In-range top-half write: for `y < R`, `leddisplay_pixel_xy_rgb` stores
`pixelWord … true` into `(y, i, storeIdx x)` for every bitplane `i`, and
leaves every other position unchanged. -/
lemma pixel_xy_top_char (g : Geometry) (t cutoff : Nat) (buf : Buffer)
    (x y red green blue : Nat) (hx : x < g.W) (hy : y < g.R) :
    (∀ i, i < COLOR_DEPTH_BITS →
      leddisplay_pixel_xy_rgb g t cutoff buf x y red green blue (y, i, storeIdx x) =
        pixelWord g t cutoff (buf (y, i, storeIdx x)) y i x true red green blue) ∧
    (∀ q : Nat × Nat × Nat, (∀ i, i < COLOR_DEPTH_BITS → q ≠ (y, i, storeIdx x)) →
      leddisplay_pixel_xy_rgb g t cutoff buf x y red green blue q = buf q) := by
  have hyH : y < g.H := by
    have : g.R ≤ g.H := Nat.div_le_self _ _
    omega
  have hns : ¬ (y > g.R - 1) := by omega
  unfold leddisplay_pixel_xy_rgb
  rw [if_neg (by omega : ¬ (x ≥ g.W ∨ y ≥ g.H))]
  simp only [if_neg hns]
  constructor
  · intro i hi
    have h := foldl_updF_of_mem (fun i => ((y, i, storeIdx x) : Nat × Nat × Nat))
      (fun i old => pixelWord g t cutoff old y i x (!decide (y > g.R - 1)) red green blue)
      (List.range COLOR_DEPTH_BITS) buf i (pixel_planes_pairwise y (storeIdx x))
      (List.mem_range.mpr hi)
    simpa [hns] using h
  · intro q hq
    have h := foldl_updF_of_ne (fun i => ((y, i, storeIdx x) : Nat × Nat × Nat))
      (fun i old => pixelWord g t cutoff old y i x (!decide (y > g.R - 1)) red green blue)
      (List.range COLOR_DEPTH_BITS) buf q
      (fun j hj => Ne.symm (hq j (List.mem_range.mp hj)))
    simpa [hns] using h

/-- In-range bottom-half write: for `R ≤ y < H`, `leddisplay_pixel_xy_rgb`
stores `pixelWord … false` into `(y - R, i, storeIdx x)` for every
bitplane `i`, and leaves every other position unchanged. -/
lemma pixel_xy_bottom_char (g : Geometry) (t cutoff : Nat) (buf : Buffer)
    (x y red green blue : Nat) (hx : x < g.W) (hy1 : g.R ≤ y) (hy2 : y < g.H)
    (hR : 0 < g.R) :
    (∀ i, i < COLOR_DEPTH_BITS →
      leddisplay_pixel_xy_rgb g t cutoff buf x y red green blue (y - g.R, i, storeIdx x) =
        pixelWord g t cutoff (buf (y - g.R, i, storeIdx x)) (y - g.R) i x false
          red green blue) ∧
    (∀ q : Nat × Nat × Nat, (∀ i, i < COLOR_DEPTH_BITS → q ≠ (y - g.R, i, storeIdx x)) →
      leddisplay_pixel_xy_rgb g t cutoff buf x y red green blue q = buf q) := by
  have hns : y > g.R - 1 := by omega
  unfold leddisplay_pixel_xy_rgb
  rw [if_neg (by omega : ¬ (x ≥ g.W ∨ y ≥ g.H))]
  simp only [if_pos hns]
  constructor
  · intro i hi
    have h := foldl_updF_of_mem (fun i => ((y - g.R, i, storeIdx x) : Nat × Nat × Nat))
      (fun i old => pixelWord g t cutoff old (y - g.R) i x (!decide (y > g.R - 1))
        red green blue)
      (List.range COLOR_DEPTH_BITS) buf i (pixel_planes_pairwise (y - g.R) (storeIdx x))
      (List.mem_range.mpr hi)
    simpa [hns] using h
  · intro q hq
    have h := foldl_updF_of_ne (fun i => ((y - g.R, i, storeIdx x) : Nat × Nat × Nat))
      (fun i old => pixelWord g t cutoff old (y - g.R) i x (!decide (y > g.R - 1))
        red green blue)
      (List.range COLOR_DEPTH_BITS) buf q
      (fun j hj => Ne.symm (hq j (List.mem_range.mp hj)))
    simpa [hns] using h

lemma and_two_pow_ne (n i : Nat) : (n &&& 2 ^ i ≠ 0) ↔ n.testBit i = true := by
  rw [Nat.and_two_pow]
  rcases h : n.testBit i <;> simp

lemma and_two_pow_eq_zero (n i : Nat) : (n &&& 2 ^ i = 0) ↔ n.testBit i = false := by
  rw [Nat.and_two_pow]
  rcases h : n.testBit i <;> simp

lemma mask8_eq {i : Nat} (hi : i < 8) : (1 <<< i) % 256 = 2 ^ i := by
  rw [Nat.one_shiftLeft]
  exact Nat.mod_eq_of_lt
    (lt_of_lt_of_le (Nat.pow_lt_pow_right (by norm_num) hi) (by norm_num))

lemma mask16_eq {i : Nat} (hi : i < 16) : (1 <<< i) % 65536 = 2 ^ i := by
  rw [Nat.one_shiftLeft]
  exact Nat.mod_eq_of_lt
    (lt_of_lt_of_le (Nat.pow_lt_pow_right (by norm_num) hi) (by norm_num))

lemma ctrlBits_testBit_lt6 {k : Nat} (hk : k < 6) :
    BIT_OE.testBit k = false ∧ ((BIT_LAT ||| BIT_OE) : Nat).testBit k = false := by
  revert k hk; decide

lemma ctrlTerm_testBit_lt6 (L t cutoff i x : Nat) {k : Nat} (hk : k < 6) :
    (ctrlTerm L t cutoff i x).testBit k = false := by
  obtain ⟨h1, h2⟩ := ctrlBits_testBit_lt6 hk
  simp [ctrlTerm, Nat.testBit_lor, testBit_ite, h1, h2]

/-- Low-bit (colour) content of `pixelWord`: for `k < 6` the word's bit `k`
is exactly the colour payload's bit `k`. -/
lemma pixelWord_testBit_lt6 (g : Geometry) (t cutoff old y i x : Nat)
    (top : Bool) (red green blue : Nat) {k : Nat} (hk : k < 6) :
    (pixelWord g t cutoff old y i x top red green blue).testBit k =
      (pixelColorTerm old ((1 <<< i) % 256) top red green blue).testBit k := by
  simp [pixelWord, Nat.testBit_lor, addrTerm_testBit_lt8 _ _ (by omega : k < 8),
    ctrlTerm_testBit_lt6 _ _ _ _ _ hk]

lemma colorBits_testBit : (BIT_R1.testBit 0 = true ∧ BIT_G1.testBit 1 = true ∧
    BIT_B1.testBit 2 = true ∧ BIT_R2.testBit 3 = true ∧ BIT_G2.testBit 4 = true ∧
    BIT_B2.testBit 5 = true) := by decide

/-- Colour bits of a top-half `pixelWord`: R1/G1/B1 carry bit `i` of the
new colour, R2/G2/B2 are copied verbatim from `old`. -/
lemma pixelWord_top_colors (g : Geometry) (t cutoff old y i x : Nat)
    (red green blue : Nat) (hi : i < 8) :
    ((pixelWord g t cutoff old y i x true red green blue).testBit 0 = red.testBit i) ∧
    ((pixelWord g t cutoff old y i x true red green blue).testBit 1 = green.testBit i) ∧
    ((pixelWord g t cutoff old y i x true red green blue).testBit 2 = blue.testBit i) ∧
    ((pixelWord g t cutoff old y i x true red green blue).testBit 3 = old.testBit 3) ∧
    ((pixelWord g t cutoff old y i x true red green blue).testBit 4 = old.testBit 4) ∧
    ((pixelWord g t cutoff old y i x true red green blue).testBit 5 = old.testBit 5) := by
  have hm := mask8_eq hi
  have h8 : (old &&& 8 = 0) ↔ old.testBit 3 = false := by
    have h := and_two_pow_eq_zero old 3; norm_num at h; exact h
  have h16 : (old &&& 16 = 0) ↔ old.testBit 4 = false := by
    have h := and_two_pow_eq_zero old 4; norm_num at h; exact h
  have h32 : (old &&& 32 = 0) ↔ old.testBit 5 = false := by
    have h := and_two_pow_eq_zero old 5; norm_num at h; exact h
  refine ⟨?_, ?_, ?_, ?_, ?_, ?_⟩ <;>
    · rw [pixelWord_testBit_lt6 _ _ _ _ _ _ _ _ _ _ _ (by norm_num)]
      simp only [pixelColorTerm, if_pos rfl, Nat.testBit_lor, testBit_ite, hm,
        and_two_pow_ne]
      rcases hr : red.testBit i <;> rcases hg : green.testBit i <;>
        rcases hb : blue.testBit i <;> rcases ho3 : old.testBit 3 <;>
        rcases ho4 : old.testBit 4 <;> rcases ho5 : old.testBit 5 <;>
        simp [hr, hg, hb, ho3, ho4, ho5, h8, h16, h32, BIT_R1, BIT_G1, BIT_B1,
          BIT_R2, BIT_G2, BIT_B2] <;> (try decide)

/-- Colour bits of a bottom-half `pixelWord`: R2/G2/B2 carry bit `i` of the
new colour, R1/G1/B1 are copied verbatim from `old`. -/
lemma pixelWord_bottom_colors (g : Geometry) (t cutoff old y i x : Nat)
    (red green blue : Nat) (hi : i < 8) :
    ((pixelWord g t cutoff old y i x false red green blue).testBit 3 = red.testBit i) ∧
    ((pixelWord g t cutoff old y i x false red green blue).testBit 4 = green.testBit i) ∧
    ((pixelWord g t cutoff old y i x false red green blue).testBit 5 = blue.testBit i) ∧
    ((pixelWord g t cutoff old y i x false red green blue).testBit 0 = old.testBit 0) ∧
    ((pixelWord g t cutoff old y i x false red green blue).testBit 1 = old.testBit 1) ∧
    ((pixelWord g t cutoff old y i x false red green blue).testBit 2 = old.testBit 2) := by
  have hne1 : (old &&& 1 ≠ 0) ↔ old.testBit 0 = true := by
    have h := and_two_pow_ne old 0; rw [pow_zero] at h; exact h
  have hne2 : (old &&& 2 ≠ 0) ↔ old.testBit 1 = true := by
    have h := and_two_pow_ne old 1; rw [pow_one] at h; exact h
  have hne4 : (old &&& 4 ≠ 0) ↔ old.testBit 2 = true := by
    have h := and_two_pow_ne old 2
    rw [show (2:Nat) ^ 2 = 4 by norm_num] at h; exact h
  refine ⟨?_, ?_, ?_, ?_, ?_, ?_⟩
  · rw [pixelWord_testBit_lt6 _ _ _ _ _ _ _ _ _ _ _ (by norm_num)]
    simp only [pixelColorTerm, Nat.testBit_lor, testBit_ite, mask8_eq hi,
      and_two_pow_ne, Bool.false_eq_true, if_false]
    have c0 : BIT_R2.testBit 3 = true := by decide
    have c1 : BIT_G2.testBit 3 = false := by decide
    have c2 : BIT_B2.testBit 3 = false := by decide
    have c3 : BIT_R1.testBit 3 = false := by decide
    have c4 : BIT_G1.testBit 3 = false := by decide
    have c5 : BIT_B1.testBit 3 = false := by decide
    rw [c0, c1, c2, c3, c4, c5]
    rcases hv : red.testBit i <;> simp [hv]
  · rw [pixelWord_testBit_lt6 _ _ _ _ _ _ _ _ _ _ _ (by norm_num)]
    simp only [pixelColorTerm, Nat.testBit_lor, testBit_ite, mask8_eq hi,
      and_two_pow_ne, Bool.false_eq_true, if_false]
    have c0 : BIT_R2.testBit 4 = false := by decide
    have c1 : BIT_G2.testBit 4 = true := by decide
    have c2 : BIT_B2.testBit 4 = false := by decide
    have c3 : BIT_R1.testBit 4 = false := by decide
    have c4 : BIT_G1.testBit 4 = false := by decide
    have c5 : BIT_B1.testBit 4 = false := by decide
    rw [c0, c1, c2, c3, c4, c5]
    rcases hv : green.testBit i <;> simp [hv]
  · rw [pixelWord_testBit_lt6 _ _ _ _ _ _ _ _ _ _ _ (by norm_num)]
    simp only [pixelColorTerm, Nat.testBit_lor, testBit_ite, mask8_eq hi,
      and_two_pow_ne, Bool.false_eq_true, if_false]
    have c0 : BIT_R2.testBit 5 = false := by decide
    have c1 : BIT_G2.testBit 5 = false := by decide
    have c2 : BIT_B2.testBit 5 = true := by decide
    have c3 : BIT_R1.testBit 5 = false := by decide
    have c4 : BIT_G1.testBit 5 = false := by decide
    have c5 : BIT_B1.testBit 5 = false := by decide
    rw [c0, c1, c2, c3, c4, c5]
    rcases hv : blue.testBit i <;> simp [hv]
  · rw [pixelWord_testBit_lt6 _ _ _ _ _ _ _ _ _ _ _ (by norm_num)]
    simp only [pixelColorTerm, Nat.testBit_lor, testBit_ite, mask8_eq hi,
      and_two_pow_ne, Bool.false_eq_true, if_false]
    have c0 : BIT_R2.testBit 0 = false := by decide
    have c1 : BIT_G2.testBit 0 = false := by decide
    have c2 : BIT_B2.testBit 0 = false := by decide
    have c3 : BIT_R1.testBit 0 = true := by decide
    have c4 : BIT_G1.testBit 0 = false := by decide
    have c5 : BIT_B1.testBit 0 = false := by decide
    rw [c0, c1, c2, c3, c4, c5]
    simp only [Bool.and_false, Bool.and_true, Bool.or_false, Bool.false_or]
    rw [Bool.eq_iff_iff, decide_eq_true_eq]
    exact hne1
  · rw [pixelWord_testBit_lt6 _ _ _ _ _ _ _ _ _ _ _ (by norm_num)]
    simp only [pixelColorTerm, Nat.testBit_lor, testBit_ite, mask8_eq hi,
      and_two_pow_ne, Bool.false_eq_true, if_false]
    have c0 : BIT_R2.testBit 1 = false := by decide
    have c1 : BIT_G2.testBit 1 = false := by decide
    have c2 : BIT_B2.testBit 1 = false := by decide
    have c3 : BIT_R1.testBit 1 = false := by decide
    have c4 : BIT_G1.testBit 1 = true := by decide
    have c5 : BIT_B1.testBit 1 = false := by decide
    rw [c0, c1, c2, c3, c4, c5]
    simp only [Bool.and_false, Bool.and_true, Bool.or_false, Bool.false_or]
    rw [Bool.eq_iff_iff, decide_eq_true_eq]
    exact hne2
  · rw [pixelWord_testBit_lt6 _ _ _ _ _ _ _ _ _ _ _ (by norm_num)]
    simp only [pixelColorTerm, Nat.testBit_lor, testBit_ite, mask8_eq hi,
      and_two_pow_ne, Bool.false_eq_true, if_false]
    have c0 : BIT_R2.testBit 2 = false := by decide
    have c1 : BIT_G2.testBit 2 = false := by decide
    have c2 : BIT_B2.testBit 2 = false := by decide
    have c3 : BIT_R1.testBit 2 = false := by decide
    have c4 : BIT_G1.testBit 2 = false := by decide
    have c5 : BIT_B1.testBit 2 = true := by decide
    rw [c0, c1, c2, c3, c4, c5]
    simp only [Bool.and_false, Bool.and_true, Bool.or_false, Bool.false_or]
    rw [Bool.eq_iff_iff, decide_eq_true_eq]
    exact hne4

/-- C6.  For an in-range single-pixel write, the stored word at the target
column carries the new colour bits of the addressed half while the three
colour bits of the opposite half are preserved verbatim from the word
previously stored there; writing a top-half pixel and then a bottom-half
pixel at the same column therefore leaves a word carrying both colours.
(`b1` is the buffer after the top write at `(x, y)`, `b2` after the
subsequent bottom write at `(x, y + R)`.) -/
theorem preserve_opposite_half (g : Geometry) (t cutoff : Nat) (buf : Buffer)
    (x y red green blue red' green' blue' : Nat)
    (hx : x < g.W) (hy : y < g.R) (hH : g.H = 2 * g.R) :
    ∀ i, i < COLOR_DEPTH_BITS →
      (((leddisplay_pixel_xy_rgb g t cutoff buf x y red green blue)
          (y, i, storeIdx x)).testBit 0 = red.testBit i ∧
       ((leddisplay_pixel_xy_rgb g t cutoff buf x y red green blue)
          (y, i, storeIdx x)).testBit 1 = green.testBit i ∧
       ((leddisplay_pixel_xy_rgb g t cutoff buf x y red green blue)
          (y, i, storeIdx x)).testBit 2 = blue.testBit i ∧
       ((leddisplay_pixel_xy_rgb g t cutoff buf x y red green blue)
          (y, i, storeIdx x)).testBit 3 = (buf (y, i, storeIdx x)).testBit 3 ∧
       ((leddisplay_pixel_xy_rgb g t cutoff buf x y red green blue)
          (y, i, storeIdx x)).testBit 4 = (buf (y, i, storeIdx x)).testBit 4 ∧
       ((leddisplay_pixel_xy_rgb g t cutoff buf x y red green blue)
          (y, i, storeIdx x)).testBit 5 = (buf (y, i, storeIdx x)).testBit 5) ∧
      ((leddisplay_pixel_xy_rgb g t cutoff
          (leddisplay_pixel_xy_rgb g t cutoff buf x y red green blue)
          x (y + g.R) red' green' blue' (y, i, storeIdx x)).testBit 3 = red'.testBit i ∧
       (leddisplay_pixel_xy_rgb g t cutoff
          (leddisplay_pixel_xy_rgb g t cutoff buf x y red green blue)
          x (y + g.R) red' green' blue' (y, i, storeIdx x)).testBit 4 = green'.testBit i ∧
       (leddisplay_pixel_xy_rgb g t cutoff
          (leddisplay_pixel_xy_rgb g t cutoff buf x y red green blue)
          x (y + g.R) red' green' blue' (y, i, storeIdx x)).testBit 5 = blue'.testBit i ∧
       (leddisplay_pixel_xy_rgb g t cutoff
          (leddisplay_pixel_xy_rgb g t cutoff buf x y red green blue)
          x (y + g.R) red' green' blue' (y, i, storeIdx x)).testBit 0 = red.testBit i ∧
       (leddisplay_pixel_xy_rgb g t cutoff
          (leddisplay_pixel_xy_rgb g t cutoff buf x y red green blue)
          x (y + g.R) red' green' blue' (y, i, storeIdx x)).testBit 1 = green.testBit i ∧
       (leddisplay_pixel_xy_rgb g t cutoff
          (leddisplay_pixel_xy_rgb g t cutoff buf x y red green blue)
          x (y + g.R) red' green' blue' (y, i, storeIdx x)).testBit 2 = blue.testBit i) := by
  intro i hi
  have h1 := (pixel_xy_top_char g t cutoff buf x y red green blue hx hy).1 i hi
  have htop := pixelWord_top_colors g t cutoff (buf (y, i, storeIdx x)) y i x
    red green blue (by simpa [COLOR_DEPTH_BITS] using hi)
  have hy1 : g.R ≤ y + g.R := by omega
  have hy2 : y + g.R < g.H := by omega
  have hR : 0 < g.R := by omega
  have h2 := (pixel_xy_bottom_char g t cutoff
    (leddisplay_pixel_xy_rgb g t cutoff buf x y red green blue)
    x (y + g.R) red' green' blue' hx hy1 hy2 hR).1 i hi
  have hsub : y + g.R - g.R = y := by omega
  rw [hsub] at h2
  have hbot := pixelWord_bottom_colors g t cutoff
    ((leddisplay_pixel_xy_rgb g t cutoff buf x y red green blue) (y, i, storeIdx x))
    y i x red' green' blue' (by simpa [COLOR_DEPTH_BITS] using hi)
  refine ⟨⟨?_, ?_, ?_, ?_, ?_, ?_⟩, ⟨?_, ?_, ?_, ?_, ?_, ?_⟩⟩
  · rw [h1]; exact htop.1
  · rw [h1]; exact htop.2.1
  · rw [h1]; exact htop.2.2.1
  · rw [h1]; exact htop.2.2.2.1
  · rw [h1]; exact htop.2.2.2.2.1
  · rw [h1]; exact htop.2.2.2.2.2
  · rw [h2]; exact hbot.1
  · rw [h2]; exact hbot.2.1
  · rw [h2]; exact hbot.2.2.1
  · rw [h2, hbot.2.2.2.1, h1]; exact htop.1
  · rw [h2, hbot.2.2.2.2.1, h1]; exact htop.2.1
  · rw [h2, hbot.2.2.2.2.2, h1]; exact htop.2.2.1

/-- Witness for `preserve_opposite_half`: 64×32 panel, column 3, half-row 3,
white then red, bitplane 7. -/
theorem preserve_opposite_half_witness :

      (((leddisplay_pixel_xy_rgb g64x32 0 0 (fun _ => 0) 3 3 255 255 255)
          (3, 7, storeIdx 3)).testBit 0 = (255:Nat).testBit 7 ∧
       ((leddisplay_pixel_xy_rgb g64x32 0 0 (fun _ => 0) 3 3 255 255 255)
          (3, 7, storeIdx 3)).testBit 1 = (255:Nat).testBit 7 ∧
       ((leddisplay_pixel_xy_rgb g64x32 0 0 (fun _ => 0) 3 3 255 255 255)
          (3, 7, storeIdx 3)).testBit 2 = (255:Nat).testBit 7 ∧
       ((leddisplay_pixel_xy_rgb g64x32 0 0 (fun _ => 0) 3 3 255 255 255)
          (3, 7, storeIdx 3)).testBit 3 = ((fun _ => (0:Nat)) ((3:Nat), (7:Nat), storeIdx 3)).testBit 3 ∧
       ((leddisplay_pixel_xy_rgb g64x32 0 0 (fun _ => 0) 3 3 255 255 255)
          (3, 7, storeIdx 3)).testBit 4 = ((fun _ => (0:Nat)) ((3:Nat), (7:Nat), storeIdx 3)).testBit 4 ∧
       ((leddisplay_pixel_xy_rgb g64x32 0 0 (fun _ => 0) 3 3 255 255 255)
          (3, 7, storeIdx 3)).testBit 5 = ((fun _ => (0:Nat)) ((3:Nat), (7:Nat), storeIdx 3)).testBit 5) ∧
      ((leddisplay_pixel_xy_rgb g64x32 0 0
          (leddisplay_pixel_xy_rgb g64x32 0 0 (fun _ => 0) 3 3 255 255 255)
          3 (3 + g64x32.R) 255 0 0 (3, 7, storeIdx 3)).testBit 3 = (255:Nat).testBit 7 ∧
       (leddisplay_pixel_xy_rgb g64x32 0 0
          (leddisplay_pixel_xy_rgb g64x32 0 0 (fun _ => 0) 3 3 255 255 255)
          3 (3 + g64x32.R) 255 0 0 (3, 7, storeIdx 3)).testBit 4 = (0:Nat).testBit 7 ∧
       (leddisplay_pixel_xy_rgb g64x32 0 0
          (leddisplay_pixel_xy_rgb g64x32 0 0 (fun _ => 0) 3 3 255 255 255)
          3 (3 + g64x32.R) 255 0 0 (3, 7, storeIdx 3)).testBit 5 = (0:Nat).testBit 7 ∧
       (leddisplay_pixel_xy_rgb g64x32 0 0
          (leddisplay_pixel_xy_rgb g64x32 0 0 (fun _ => 0) 3 3 255 255 255)
          3 (3 + g64x32.R) 255 0 0 (3, 7, storeIdx 3)).testBit 0 = (255:Nat).testBit 7 ∧
       (leddisplay_pixel_xy_rgb g64x32 0 0
          (leddisplay_pixel_xy_rgb g64x32 0 0 (fun _ => 0) 3 3 255 255 255)
          3 (3 + g64x32.R) 255 0 0 (3, 7, storeIdx 3)).testBit 1 = (255:Nat).testBit 7 ∧
       (leddisplay_pixel_xy_rgb g64x32 0 0
          (leddisplay_pixel_xy_rgb g64x32 0 0 (fun _ => 0) 3 3 255 255 255)
          3 (3 + g64x32.R) 255 0 0 (3, 7, storeIdx 3)).testBit 2 = (255:Nat).testBit 7) := by
  exact (preserve_opposite_half g64x32 0 0 (fun _ => 0) 3 3 255 255 255 255 0 0
    (by decide) (by decide) (by decide)) 7 (by decide)

lemma filter_flatMap_length {α β : Type} (l : List α) (f : α → List β) (p : β → Bool) :
    ((l.flatMap f).filter p).length =
      (l.map (fun a => ((f a).filter p).length)).sum := by
  induction l with
  | nil => rfl
  | cons a l ih =>
    simp only [List.flatMap_cons, List.filter_append, List.length_append, List.map_cons,
      List.sum_cons, ih]

lemma sum_zero_of_gt (i : Nat) (v : Nat → Nat) :
    ∀ (m s : Nat), i < s →
      ((List.range' s m).map (fun k => if k ≤ i then v k else 0)).sum = 0 := by
  intro m
  induction m with
  | zero => intro s _; rfl
  | succ m ih =>
    intro s hs
    rw [List.range'_succ]
    simp only [List.map_cons, List.sum_cons]
    rw [if_neg (by omega), ih (s + 1) (by omega)]

lemma sum_pow_range' (i c : Nat) :
    ∀ (m s : Nat), c ≤ s → s ≤ i → i < s + m →
      ((List.range' s m).map (fun k => if k ≤ i then 2 ^ (k - c) else 0)).sum =
        2 ^ (i + 1 - c) - 2 ^ (s - c) := by
  intro m
  induction m with
  | zero => intro s _ h1 h2; omega
  | succ m ih =>
    intro s hc h1 h2
    rw [List.range'_succ]
    simp only [List.map_cons, List.sum_cons]
    rw [if_pos h1]
    by_cases hi : i < s + 1
    · have heq : i = s := by omega
      subst heq
      rw [sum_zero_of_gt i (fun k => 2 ^ (k - c)) m (i + 1) (by omega)]
      have hpow : 2 ^ (i + 1 - c) = 2 * 2 ^ (i - c) := by
        rw [show i + 1 - c = (i - c) + 1 by omega, pow_succ]
        ring
      omega
    · rw [ih (s + 1) (by omega) (by omega) (by omega)]
      have hpow : 2 ^ (s + 1 - c) = 2 * 2 ^ (s - c) := by
        rw [show s + 1 - c = (s - c) + 1 by omega, pow_succ]
        ring
      have hge : 2 ^ (s + 1 - c) ≤ 2 ^ (i + 1 - c) :=
        Nat.pow_le_pow_right (by norm_num) (by omega)
      omega

lemma rowDescs_length (L t j : Nat) :
    (rowDescs L t j).length = numDescriptorsPerRow t := by
  simp only [rowDescs, numDescriptorsPerRow, List.length_cons, List.length_flatMap]
  have : (List.map (List.length ∘ fun i =>
      List.replicate (1 <<< (i - t - 1)) (⟨j, i, (COLOR_DEPTH_BITS - i) * L⟩ : DmaDesc))
      (List.range' (t + 1) (COLOR_DEPTH_BITS - (t + 1)))) =
      (List.range' (t + 1) (COLOR_DEPTH_BITS - (t + 1))).map
        (fun i => 1 <<< (i - t - 1)) := by
    apply List.map_congr_left
    intro a _
    simp [List.length_replicate]
  rw [this]
  omega

lemma descList_length (g : Geometry) (t : Nat) :
    (descList g t).length = g.R * numDescriptorsPerRow t := by
  rw [descList, List.length_flatMap]
  have h : List.map (List.length ∘ rowDescs g.L t) (List.range g.R) =
      List.map (fun _ => numDescriptorsPerRow t) (List.range g.R) := by
    apply List.map_congr_left
    intro a _
    simp [rowDescs_length]
  rw [h, List.map_const', List.length_range, List.sum_replicate, smul_eq_mul]

lemma sum_zero_of_ne (i : Nat) (v : Nat → Nat) :
    ∀ (m s : Nat), i < s →
      ((List.range' s m).map (fun k => if k = i then v k else 0)).sum = 0 := by
  intro m
  induction m with
  | zero => intro s _; rfl
  | succ m ih =>
    intro s hs
    rw [List.range'_succ]
    simp only [List.map_cons, List.sum_cons]
    rw [if_neg (by omega), ih (s + 1) (by omega)]

lemma sum_single (v : Nat → Nat) (i : Nat) :
    ∀ (m s : Nat), s ≤ i → i < s + m →
      ((List.range' s m).map (fun k => if k = i then v k else 0)).sum = v i := by
  intro m
  induction m with
  | zero => intro s h1 h2; omega
  | succ m ih =>
    intro s h1 h2
    rw [List.range'_succ]
    simp only [List.map_cons, List.sum_cons]
    by_cases hs : s = i
    · subst hs
      rw [if_pos rfl, sum_zero_of_ne s v m (s + 1) (by omega)]
      omega
    · rw [if_neg hs, ih (s + 1) (by omega) (by omega)]
      omega

lemma emitCount_eq (L t j i : Nat) (hi : i < COLOR_DEPTH_BITS) :
    emitCount L t j i = if i ≤ t then 1 else 2 ^ (i - t) := by
  unfold emitCount rowDescs
  rw [List.filter_cons]
  rw [if_pos (by simp : decide ((⟨j, 0, COLOR_DEPTH_BITS * L⟩ : DmaDesc).plane ≤ i) = true)]
  rw [List.length_cons]
  rw [filter_flatMap_length]
  have hmap : (List.map (fun a =>
      ((List.replicate (1 <<< (a - t - 1))
        (⟨j, a, (COLOR_DEPTH_BITS - a) * L⟩ : DmaDesc)).filter
          (fun d => d.plane ≤ i)).length)
      (List.range' (t + 1) (COLOR_DEPTH_BITS - (t + 1)))) =
      (List.range' (t + 1) (COLOR_DEPTH_BITS - (t + 1))).map
        (fun k => if k ≤ i then 2 ^ (k - (t + 1)) else 0) := by
    apply List.map_congr_left
    intro a _
    rw [List.filter_replicate]
    split
    · rename_i hcond
      simp only [decide_eq_true_eq] at hcond
      rw [if_pos hcond, List.length_replicate, Nat.one_shiftLeft,
        show a - t - 1 = a - (t + 1) by omega]
    · rename_i hcond
      simp only [decide_eq_true_eq] at hcond
      rw [if_neg hcond]
      rfl
  rw [hmap]
  by_cases hit : i ≤ t
  · rw [if_pos hit, sum_zero_of_gt i (fun k => 2 ^ (k - (t + 1)))
      (COLOR_DEPTH_BITS - (t + 1)) (t + 1) (by omega)]
  · rw [if_neg hit, sum_pow_range' i (t + 1) (COLOR_DEPTH_BITS - (t + 1)) (t + 1)
      le_rfl (by omega) (by omega)]
    have hpos : 0 < 2 ^ (i + 1 - (t + 1)) := Nat.pos_pow_of_pos _ (by norm_num)
    rw [show i + 1 - (t + 1) = i - t by omega] at hpos ⊢
    simp only [Nat.sub_self, pow_zero]
    omega

lemma rowDescs_plane_count (L t j i : Nat) (hti : t < i) (hi : i < COLOR_DEPTH_BITS) :
    ((rowDescs L t j).filter (fun d => d.plane = i)).length = 2 ^ (i - t - 1) := by
  unfold rowDescs
  rw [List.filter_cons]
  rw [if_neg (by simp; omega)]
  rw [filter_flatMap_length]
  have hmap : (List.map (fun a =>
      ((List.replicate (1 <<< (a - t - 1))
        (⟨j, a, (COLOR_DEPTH_BITS - a) * L⟩ : DmaDesc)).filter
          (fun d => d.plane = i)).length)
      (List.range' (t + 1) (COLOR_DEPTH_BITS - (t + 1)))) =
      (List.range' (t + 1) (COLOR_DEPTH_BITS - (t + 1))).map
        (fun k => if k = i then 2 ^ (k - t - 1) else 0) := by
    apply List.map_congr_left
    intro a _
    rw [List.filter_replicate]
    split
    · rename_i hcond
      simp only [decide_eq_true_eq] at hcond
      rw [if_pos hcond, List.length_replicate, Nat.one_shiftLeft]
    · rename_i hcond
      simp only [decide_eq_true_eq] at hcond
      rw [if_neg hcond]
      rfl
  rw [hmap, sum_single (fun k => 2 ^ (k - t - 1)) i (COLOR_DEPTH_BITS - (t + 1)) (t + 1)
    (by omega) (by omega)]

/-- C1.  With transition bit `t`, each descriptor ring has
`R · K(t)` descriptors where `K(t) = numDescriptorsPerRow t =
1 + Σ_{i=t+1..D-1} 2^(i-t-1)`; each row's stretch starts with one
descriptor covering all `D` bitplanes (`D·L` words) and contains, for each
plane `i > t`, exactly `2^(i-t-1)` descriptors covering planes `i..D-1`
(`(D-i)·L` words); the last descriptor links back to the first of the same
ring; and one linear traversal covers bitplane `i` of each row exactly
once when `i ≤ t` and exactly `2^(i-t)` times when `i > t`. -/
theorem descriptor_ring (g : Geometry) (t : Nat) (ht : t < COLOR_DEPTH_BITS) :
    (descList g t).length = g.R * numDescriptorsPerRow t ∧
    (∀ j : Nat, (rowDescs g.L t j).head? =
      some ⟨j, 0, COLOR_DEPTH_BITS * g.L⟩) ∧
    (∀ j : Nat, ∀ d ∈ rowDescs g.L t j, d.row = j ∧
        ((d.plane = 0 ∧ d.words = COLOR_DEPTH_BITS * g.L) ∨
         (t < d.plane ∧ d.plane < COLOR_DEPTH_BITS ∧
           d.words = (COLOR_DEPTH_BITS - d.plane) * g.L))) ∧
    (∀ j i : Nat, t < i → i < COLOR_DEPTH_BITS →
        ((rowDescs g.L t j).filter (fun d => d.plane = i)).length =
          2 ^ (i - t - 1)) ∧
    ringNext ((descList g t).length) ((descList g t).length - 1) = 0 ∧
    (∀ j i : Nat, i < COLOR_DEPTH_BITS →
        emitCount g.L t j i = if i ≤ t then 1 else 2 ^ (i - t)) := by
  refine ⟨descList_length g t, fun j => rfl, ?_, ?_, ?_, ?_⟩
  · intro j d hd
    unfold rowDescs at hd
    rcases List.mem_cons.mp hd with rfl | hd'
    · exact ⟨rfl, Or.inl ⟨rfl, rfl⟩⟩
    · rw [List.mem_flatMap] at hd'
      obtain ⟨a, ha, hda⟩ := hd'
      rw [List.mem_range'_1] at ha
      have hd2 := List.eq_of_mem_replicate hda
      subst hd2
      have ht8 : t < 8 := by simpa [COLOR_DEPTH_BITS] using ht
      simp only [COLOR_DEPTH_BITS] at ha
      refine ⟨rfl, Or.inr ⟨?_, ?_, rfl⟩⟩
      · show t < a
        omega
      · show a < COLOR_DEPTH_BITS
        simp only [COLOR_DEPTH_BITS]
        omega
  · intro j i h1 h2
    exact rowDescs_plane_count g.L t j i h1 h2
  · unfold ringNext
    rw [if_pos rfl]
  · intro j i hi
    exact emitCount_eq g.L t j i hi

/-- Witness for `descriptor_ring`: 64×32 panel, `t = 2`. -/
theorem descriptor_ring_witness :
    (descList g64x32 2).length = g64x32.R * numDescriptorsPerRow 2 ∧
    (rowDescs g64x32.L 2 0).head? = some ⟨0, 0, COLOR_DEPTH_BITS * g64x32.L⟩ ∧
    ((rowDescs g64x32.L 2 0).filter (fun d => d.plane = 5)).length = 2 ^ (5 - 2 - 1) ∧
    ringNext ((descList g64x32 2).length) ((descList g64x32 2).length - 1) = 0 ∧
    emitCount g64x32.L 2 0 5 = (if 5 ≤ 2 then 1 else 2 ^ (5 - 2)) ∧
    emitCount g64x32.L 2 0 1 = (if 1 ≤ 2 then 1 else 2 ^ (1 - 2)) := by
  have h := descriptor_ring g64x32 2 (by decide)
  exact ⟨h.1, h.2.1 0, h.2.2.2.1 0 5 (by decide) (by decide), h.2.2.2.2.1,
    h.2.2.2.2.2 0 5 (by decide), h.2.2.2.2.2 0 1 (by decide)⟩

/-- C7.  Every encoding path stores the word computed for logical column
`x` at array index `x XOR 1` of its row/bitplane slice: the reorder
`storeIdx` is exactly XOR with 1 (so column 0 goes to offset 1 and vice
versa); the pixel write lands at `(y, i, x ^^^ 1)` and touches nothing
else; and the bulk fill and frame-flush paths place the word for column
`x` at index `x ^^^ 1`. -/
theorem halfword_swap (g : Geometry) (t cutoff : Nat) (buf : Buffer) (f : Frame)
    (x y red green blue : Nat) (hx : x < g.W) (hy : y < g.R) (hW : g.W % 2 = 0) :
    (∀ z : Nat, storeIdx z = z ^^^ 1) ∧
    (∀ i, i < COLOR_DEPTH_BITS →
      leddisplay_pixel_xy_rgb g t cutoff buf x y red green blue (y, i, x ^^^ 1) =
        pixelWord g t cutoff (buf (y, i, x ^^^ 1)) y i x true red green blue) ∧
    (∀ q : Nat × Nat × Nat, (∀ i, i < COLOR_DEPTH_BITS → q ≠ (y, i, x ^^^ 1)) →
      leddisplay_pixel_xy_rgb g t cutoff buf x y red green blue q = buf q) ∧
    (∀ i, i < COLOR_DEPTH_BITS →
      leddisplay_pixel_fill_rgb g t cutoff buf red green blue (y, i, x ^^^ 1) =
        fillWord g t cutoff y i x red green blue) ∧
    (∀ i, i < COLOR_DEPTH_BITS →
      leddisplay_frame_update g t cutoff f buf (y, i, x ^^^ 1) =
        frameWord g t cutoff f y i x) := by
  have hs : storeIdx x = x ^^^ 1 := storeIdx_eq_xor x
  have hxor_lt : x ^^^ 1 < g.W := by rw [← hs]; exact storeIdx_lt hW hx
  have hxor_back : storeIdx (x ^^^ 1) = x := by rw [← hs, storeIdx_involutive]
  refine ⟨storeIdx_eq_xor, ?_, ?_, ?_, ?_⟩
  · intro i hi
    have h := (pixel_xy_top_char g t cutoff buf x y red green blue hx hy).1 i hi
    rw [hs] at h
    exact h
  · intro q hq
    have h := (pixel_xy_top_char g t cutoff buf x y red green blue hx hy).2 q
      (by rw [hs]; exact hq)
    exact h
  · intro i hi
    unfold leddisplay_pixel_fill_rgb
    rw [encodeFrameBufAux _ g.W hW g.R buf (y, i, x ^^^ 1),
      if_pos ⟨hy, hi, hxor_lt⟩, hxor_back]
  · intro i hi
    unfold leddisplay_frame_update
    rw [encodeFrameBufAux _ g.W hW g.R buf (y, i, x ^^^ 1),
      if_pos ⟨hy, hi, hxor_lt⟩, hxor_back]

/-- Witness for `halfword_swap`: 64×32 panel, column 0, half-row 2 — the
word for column 0 lands at offset 1. -/
theorem halfword_swap_witness :
    (storeIdx 0 = 0 ^^^ 1) ∧ (storeIdx 1 = 1 ^^^ 1) ∧
    (leddisplay_pixel_xy_rgb g64x32 0 0 (fun _ => 0) 0 2 9 9 9 (2, 7, 0 ^^^ 1) =
      pixelWord g64x32 0 0 ((fun _ => (0:Nat)) ((2:Nat), (7:Nat), 0 ^^^ 1)) 2 7 0
        true 9 9 9) ∧
    (leddisplay_pixel_fill_rgb g64x32 0 0 (fun _ => 0) 9 9 9 (2, 7, 0 ^^^ 1) =
      fillWord g64x32 0 0 2 7 0 9 9 9) ∧
    (leddisplay_frame_update g64x32 0 0 (fun _ => 0) (fun _ => 0) (2, 7, 0 ^^^ 1) =
      frameWord g64x32 0 0 (fun _ => 0) 2 7 0) := by
  have h := halfword_swap g64x32 0 0 (fun _ => 0) (fun _ => 0) 0 2 9 9 9
    (by decide) (by decide) (by decide)
  exact ⟨h.1 0, h.1 1, h.2.1 7 (by decide), h.2.2.2.1 7 (by decide),
    h.2.2.2.2 7 (by decide)⟩

/-- C8.  Out-of-range coordinates are silently ignored: for `x ≥ W` or
`y ≥ H` the pixel write returns the bitplane buffer unchanged (the other
buffer is never touched by this call at all), and the staging-frame write
returns the frame unchanged; neither function reports an error (both are
`void` in the source and total here). -/
theorem out_of_range_ignored (g : Geometry) (t cutoff : Nat) (buf : Buffer)
    (f : Frame) (x y red green blue : Nat) (h : x ≥ g.W ∨ y ≥ g.H) :
    leddisplay_pixel_xy_rgb g t cutoff buf x y red green blue = buf ∧
    leddisplay_frame_xy_rgb g f x y red green blue = f := by
  constructor
  · unfold leddisplay_pixel_xy_rgb
    rw [if_pos h]
  · unfold leddisplay_frame_xy_rgb
    rw [if_pos h]

/-- Witness for `out_of_range_ignored`: `x = W` on the 64×32 panel. -/
theorem out_of_range_ignored_witness :
    leddisplay_pixel_xy_rgb g64x32 0 0 (fun _ => 0) 64 0 255 255 255 = (fun _ => 0) ∧
    leddisplay_frame_xy_rgb g64x32 (fun _ => 0) 64 0 255 255 255 = (fun _ => 0) :=
  out_of_range_ignored g64x32 0 0 (fun _ => 0) (fun _ => 0) 64 0 255 255 255
    (Or.inl (by decide))

lemma frameFillLoop_char (g : Geometry) (red green blue : Nat) :
    ∀ (n : Nat) (f : Frame) (p : Nat),
      ((List.range n).foldl
        (fun acc ix =>
          upd (upd (upd acc (ix * 3 + 0) red) (ix * 3 + 1) green) (ix * 3 + 2) blue)
        f) p =
      if p < n * 3 then fillChannel red green blue p else f p := by
  intro n
  induction n with
  | zero =>
    intro f p
    simp
  | succ n ih =>
    intro f p
    rw [List.range_succ, List.foldl_append, List.foldl_cons, List.foldl_nil]
    by_cases h2 : p = n * 3 + 2
    · subst h2
      rw [upd_same, if_pos (by omega)]
      unfold fillChannel
      rw [if_neg (by omega), if_neg (by omega)]
    · by_cases h1 : p = n * 3 + 1
      · subst h1
        rw [upd_other _ _ _ _ (by omega), upd_same, if_pos (by omega)]
        unfold fillChannel
        rw [if_neg (by omega), if_pos (by omega)]
      · by_cases h0 : p = n * 3 + 0
        · subst h0
          rw [upd_other _ _ _ _ (by omega), upd_other _ _ _ _ (by omega), upd_same,
            if_pos (by omega)]
          unfold fillChannel
          rw [if_pos (by omega)]
        · rw [upd_other _ _ _ _ h2, upd_other _ _ _ _ h1, upd_other _ _ _ _ h0,
            ih f p]
          by_cases hp : p < n * 3
          · rw [if_pos hp, if_pos (by omega)]
          · rw [if_neg hp, if_neg (by omega)]

lemma frameFillLoop_at (g : Geometry) (f : Frame) (red green blue p : Nat) :
    frameFillLoop g f red green blue p =
      if p < (g.H * g.W) * 3 then fillChannel red green blue p else f p := by
  unfold frameFillLoop
  exact frameFillLoop_char g red green blue (g.H * g.W) f p

/-- C10.  `leddisplay_frame_fill_rgb` sets every pixel of the staging frame
to exactly `(red, green, blue)` (both branches), and when
`red = green = blue` the `memset` fast path produces a frame
byte-identical to the one the general per-pixel loop would produce. -/
theorem frame_fill_rgb_behaviour (g : Geometry) (f : Frame) (red green blue : Nat) :
    (∀ y x c : Nat, y < g.H → x < g.W → c < 3 →
      frameAt g (leddisplay_frame_fill_rgb g f red green blue) y x c =
        (if c = 0 then red else if c = 1 then green else blue)) ∧
    (red = green → red = blue →
      leddisplay_frame_fill_rgb g f red green blue = frameFillLoop g f red green blue) := by
  have hin : ∀ y x c : Nat, y < g.H → x < g.W → c < 3 →
      (y * g.W + x) * 3 + c < g.H * g.W * 3 := by
    intro y x c hy hx hc
    have h1 : y * g.W + x < g.H * g.W := by
      have h2 : y * g.W + g.W ≤ g.H * g.W := by
        have : (y + 1) * g.W ≤ g.H * g.W := Nat.mul_le_mul_right _ (by omega)
        calc y * g.W + g.W = (y + 1) * g.W := by ring
          _ ≤ g.H * g.W := this
      omega
    calc (y * g.W + x) * 3 + c < (y * g.W + x) * 3 + 3 := by omega
      _ = (y * g.W + x + 1) * 3 := by ring
      _ ≤ (g.H * g.W) * 3 := Nat.mul_le_mul_right _ (by omega)
      _ = g.H * g.W * 3 := rfl
  constructor
  · intro y x c hy hx hc
    unfold leddisplay_frame_fill_rgb frameAt
    by_cases heq : red = green ∧ red = blue
    · rw [if_pos heq]
      simp only [if_pos (hin y x c hy hx hc)]
      obtain ⟨hg, hb⟩ := heq
      interval_cases c <;> simp [hg, hb] <;> omega
    · rw [if_neg heq]
      rw [frameFillLoop_at g f red green blue]
      rw [if_pos (by have := hin y x c hy hx hc; omega)]
      unfold fillChannel
      have hmod : ((y * g.W + x) * 3 + c) % 3 = c := by omega
      rw [hmod]
  · intro hg hb
    unfold leddisplay_frame_fill_rgb
    rw [if_pos ⟨hg, hb⟩]
    funext p
    rw [frameFillLoop_at g f red green blue p]
    subst hg hb
    by_cases hp : p < g.H * g.W * 3
    · rw [if_pos hp, if_pos (by omega)]
      unfold fillChannel
      split <;> (try split) <;> rfl
    · rw [if_neg hp, if_neg (by omega)]

/-- Witness for `frame_fill_rgb_behaviour`: grey fill (7,7,7) on the 64×32
panel; the fast path agrees with the loop path and pixel (1,2) reads
back (7,7,7). -/
theorem frame_fill_rgb_behaviour_witness :
    (frameAt g64x32 (leddisplay_frame_fill_rgb g64x32 (fun _ => 0) 7 7 7) 2 1 0 =
      (if (0:Nat) = 0 then 7 else if (0:Nat) = 1 then 7 else 7)) ∧
    (leddisplay_frame_fill_rgb g64x32 (fun _ => 0) 7 7 7 =
      frameFillLoop g64x32 (fun _ => 0) 7 7 7) := by
  have h := frame_fill_rgb_behaviour g64x32 (fun _ => 0) 7 7 7
  exact ⟨h.1 2 1 0 (by decide) (by decide) (by decide), h.2 rfl rfl⟩

end Leddisplay
